import Mathlib

/-!
Media extractor extension: a shallow embedding.

The three scripts of the extension (`content_script.js`, `background.js`,
`popup.js`) are embedded as pure Lean functions.  Browser built-ins that the
scripts call (`atob`, `decodeURIComponent`, `String.prototype.*`, promises,
`browser.*`) are modelled explicitly and named after the built-in they stand
for; every function that carries the name of a source function follows that
function statement by statement.
-/

namespace MediaExtractor

/-! ## JavaScript strings -/

/-- JavaScript string values, as the list of their characters.  A character
outside the Basic Multilingual Plane stands for its surrogate pair. -/
abbrev JSString := List Char

/-- A JavaScript value that is either a string or absent (`undefined`/`null`). -/
abbrev MaybeString := Option JSString

/-- Truthiness of a string-or-absent value: absent and the empty string are falsy. -/
def truthy : MaybeString → Bool
  | none => false
  | some s => !s.isEmpty

/-- The method `s.startsWith(p)`. -/
def startsWith (s p : JSString) : Bool := p.isPrefixOf s

/-- The method `s.endsWith(p)`. -/
def endsWith (s p : JSString) : Bool := p.isSuffixOf s

/-- The method `s.includes(sub)`: `sub` occurs somewhere in `s`. -/
def includes : JSString → JSString → Bool
  | [], sub => sub.isEmpty
  | c :: t, sub => startsWith (c :: t) sub || includes t sub

/-- The method `s.toLowerCase()` on the ASCII letters; other characters are kept.
(The two non-ASCII characters whose Unicode lower case contains an ASCII letter,
U+0130 and U+212A, yield `i` followed by U+0307 and `k`; no string matched by
the scripts contains `k` or an `i` followed by a combining dot.) -/
def toLowerCase (s : JSString) : JSString := s.map Char.toLower

/-! ## content_script.js: looksLikeMedia -/

/-- The array `extMedia` of `looksLikeMedia`. -/
def extMedia : List JSString :=
  [".mp4".toList, ".webm".toList, ".ogg".toList, ".mp3".toList, ".wav".toList,
   ".m4a".toList, ".flac".toList, ".jpg".toList, ".jpeg".toList, ".png".toList,
   ".gif".toList, ".svg".toList, ".mov".toList]

/-- The function `looksLikeMedia(url)` of content_script.js. -/
def looksLikeMedia (url : MaybeString) : Bool :=
  match url with
  | none => false
  | some u =>
    if u.isEmpty then false
    else
      let lower := toLowerCase u
      if extMedia.any (fun e => includes lower e) then true
      else if startsWith lower "blob:".toList || startsWith lower "data:".toList then true
      else false

/-- The URL with any query string and fragment removed: the text before the
first `?` or `#`. -/
def stripQueryFragment (u : JSString) : JSString :=
  u.takeWhile (fun c => c != '?' && c != '#')

/-- The classification as the specification words it: a `blob:` or `data:`
prefix, or one of the extensions at the end of the URL once query and fragment
are removed (all case-insensitively). -/
def specLooksLikeMedia (u : JSString) : Bool :=
  startsWith (toLowerCase u) "blob:".toList || startsWith (toLowerCase u) "data:".toList ||
    extMedia.any (fun e => endsWith (toLowerCase (stripQueryFragment u)) e)

/-! ## More string built-ins -/

/-- The method `s.split(sep)` for a one-character separator: the pieces between
the occurrences of `sep`, in order; never the empty array. -/
def split (s : JSString) (sep : Char) : List JSString :=
  match s with
  | [] => [[]]
  | c :: t =>
    if c == sep then [] :: split t sep
    else
      match split t sep with
      | [] => [[c]]
      | p :: ps => (c :: p) :: ps

/-- The method `s.indexOf(sub)`: the first position where `sub` occurs, or `-1`. -/
def indexOf (s sub : JSString) : Int :=
  match s with
  | [] => if sub.isEmpty then 0 else -1
  | c :: t =>
    if startsWith (c :: t) sub then 0
    else
      let r := indexOf t sub
      if r == -1 then -1 else r + 1

/-- The expression `x || dflt` for a string-or-absent `x`. -/
def orElse (x : MaybeString) (dflt : JSString) : JSString :=
  match x with
  | some s => if s.isEmpty then dflt else s
  | none => dflt

/-- The UTF-16 code units of a string: what `charCodeAt(i)` reads for
`i = 0 .. length-1`. -/
def codeUnits (s : JSString) : List Nat :=
  s.flatMap (fun c =>
    if c.toNat < 65536 then [c.toNat]
    else [55296 + (c.toNat - 65536) / 1024, 56320 + (c.toNat - 65536) % 1024])

/-- The loop `for (i...) byteArray[i] = s.charCodeAt(i)` into a fresh
`Uint8Array(s.length)`: each code unit is stored modulo 256. -/
def toUint8Array (s : JSString) : List Nat :=
  (codeUnits s).map (fun u => u % 256)

/-! ## Errors -/

/-- The exceptions that occur in the scripts. -/
inductive JSError
  /-- A `URIError`, thrown by `decodeURIComponent`. -/
  | uriError
  /-- The `InvalidCharacterError` DOMException, thrown by `atob`. -/
  | invalidCharacter
  /-- A `TypeError`. -/
  | typeError
  /-- The value of `new Error(message)`. -/
  | error (message : JSString)
  /-- A failure reported by a browser API, with the text `String(err)` gives. -/
  | platform (text : JSString)
  deriving DecidableEq, Repr

deriving instance DecidableEq for Except

/-! ## atob: forgiving base64 decoding -/

/-- The 64 characters of the base64 alphabet, in value order. -/
def base64Alphabet : JSString :=
  "ABCDEFGHIJKLMNOPQRSTUVWXYZabcdefghijklmnopqrstuvwxyz0123456789+/".toList

/-- The value of a base64 character, if it is one. -/
def base64Value (c : Char) : Option Nat :=
  let i := base64Alphabet.indexOf c
  if i < 64 then some i else none

/-- ASCII whitespace: TAB, LF, FF, CR, SPACE. -/
def isAsciiWhitespace (c : Char) : Bool :=
  c.toNat == 9 || c.toNat == 10 || c.toNat == 12 || c.toNat == 13 || c.toNat == 32

/-- Removal of one or two trailing `=` when the length is a multiple of 4. -/
def stripPadding (s : JSString) : JSString :=
  if s.length % 4 == 0 then
    if endsWith s "==".toList then s.dropLast.dropLast
    else if endsWith s "=".toList then s.dropLast
    else s
  else s

/-- The bytes denoted by a sequence of 6-bit values: 3 bytes for every 4
values; 2 bytes for 3 trailing values and 1 byte for 2 trailing values, the
surplus low bits being discarded. -/
def sextetsToBytes : List Nat → List Nat
  | a :: b :: c :: d :: rest =>
    let n := a * 262144 + b * 4096 + c * 64 + d
    (n / 65536) :: (n / 256 % 256) :: (n % 256) :: sextetsToBytes rest
  | [a, b, c] =>
    let n := (a * 4096 + b * 64 + c) / 4
    [n / 256, n % 256]
  | [a, b] => [(a * 64 + b) / 16]
  | _ => []

/-- The values of the characters, if every one is a base64 character. -/
def sextetsOf : JSString → Option (List Nat)
  | [] => some []
  | c :: t =>
    match base64Value c, sextetsOf t with
    | some v, some vs => some (v :: vs)
    | _, _ => none

/-- The built-in `atob(data)`: the forgiving-base64 decoding of the HTML
standard.  The result is the binary string whose characters are the decoded
bytes; invalid input throws `InvalidCharacterError`. -/
def atob (data : JSString) : Except JSError JSString :=
  let d := stripPadding (data.filter (fun c => !isAsciiWhitespace c))
  if d.length % 4 == 1 then .error .invalidCharacter
  else
    match sextetsOf d with
    | none => .error .invalidCharacter
    | some vs => .ok ((sextetsToBytes vs).map Char.ofNat)

/-! ## decodeURIComponent -/

/-- The value of a hexadecimal digit. -/
def hexDigit (c : Char) : Option Nat :=
  if 48 ≤ c.toNat ∧ c.toNat ≤ 57 then some (c.toNat - 48)
  else if 97 ≤ c.toNat ∧ c.toNat ≤ 102 then some (c.toNat - 87)
  else if 65 ≤ c.toNat ∧ c.toNat ≤ 70 then some (c.toNat - 55)
  else none

/-- ParseHexOctet: the byte written by two hexadecimal digits. -/
def parseHexOctet (h1 h2 : Char) : Option Nat :=
  match hexDigit h1, hexDigit h2 with
  | some a, some b => some (16 * a + b)
  | _, _ => none

/-- The number of leading 1 bits of a byte (5 stands for "more than 4"). -/
def leadingOnes (b : Nat) : Nat :=
  if b < 128 then 0 else if b < 192 then 1 else if b < 224 then 2
  else if b < 240 then 3 else if b < 248 then 4 else 5

/-- Reads `k` further escapes `%XX` from the front of `s`. -/
def readContinuation : Nat → JSString → Option (List Nat)
  | 0, _ => some []
  | k + 1, c :: h1 :: h2 :: rest =>
    if c == '%' then
      match parseHexOctet h1 h2, readContinuation k rest with
      | some b, some bs => some (b :: bs)
      | _, _ => none
    else none
  | _ + 1, _ => none

/-- The code point a lead byte with `n` leading ones and its continuation
bytes encode in UTF-8, if the octets are a valid UTF-8 encoding: continuation
bytes of the form 10xxxxxx, no overlong form, no surrogate, at most U+10FFFF. -/
def utf8CodePoint (n lead : Nat) (conts : List Nat) : Option Nat :=
  if conts.all (fun b => 128 ≤ b && b < 192) then
    let v := conts.foldl (fun acc b => acc * 64 + b % 64) (lead % 2 ^ (7 - n))
    let lowest := if n = 2 then 128 else if n = 3 then 2048 else 65536
    if lowest ≤ v ∧ v ≤ 1114111 ∧ ¬ (55296 ≤ v ∧ v ≤ 57343) then some v else none
  else none

/-- The loop of the abstract operation Decode of ECMA-262 with an empty
preserve set.  The first argument counts code units the index has already
moved over (the continuation escapes of a multi-byte sequence). -/
def decodeFrom : Nat → JSString → Except JSError JSString
  | _, [] => .ok []
  | skip + 1, _ :: rest => decodeFrom skip rest
  | 0, c :: rest =>
    if c != '%' then (decodeFrom 0 rest).map (fun r => c :: r)
    else
      match rest with
      | h1 :: h2 :: rest2 =>
        match parseHexOctet h1 h2 with
        | none => .error .uriError
        | some b =>
          let n := leadingOnes b
          if n = 0 then (decodeFrom 0 rest2).map (fun r => Char.ofNat b :: r)
          else if n = 1 ∨ n > 4 then .error .uriError
          else
            match readContinuation (n - 1) rest2 with
            | none => .error .uriError
            | some conts =>
              match utf8CodePoint n b conts with
              | none => .error .uriError
              | some v => (decodeFrom (3 * (n - 1)) rest2).map (fun r => Char.ofNat v :: r)
      | _ => .error .uriError

/-- The built-in `decodeURIComponent(s)`. -/
def decodeURIComponent (s : JSString) : Except JSError JSString := decodeFrom 0 s

/-- Valid percent-encoding: every `%` is followed by two hexadecimal digits. -/
def pctValid : JSString → Bool
  | [] => true
  | c :: rest =>
    if c == '%' then
      match rest with
      | h1 :: h2 :: rest2 => (parseHexOctet h1 h2).isSome && pctValid rest2
      | _ => false
    else pctValid rest

/-- Valid percent-encoding all of whose escapes `%XX` write a byte below 128. -/
def pctAscii : JSString → Bool
  | [] => true
  | c :: rest =>
    if c == '%' then
      match rest with
      | h1 :: h2 :: rest2 =>
        match parseHexOctet h1 h2 with
        | some b => decide (b < 128) && pctAscii rest2
        | none => false
      | _ => false
    else pctAscii rest

/-! ## Encoders of the specification -/

/-- The base64 character of a 6-bit value. -/
def base64Char (v : Nat) : Char := base64Alphabet.getD v 'A'

/-- Standard base64 with padding (RFC 4648, section 4) of a byte sequence. -/
def base64Encode : List Nat → JSString
  | a :: b :: c :: rest =>
    base64Char (a / 4) :: base64Char (a % 4 * 16 + b / 16) ::
      base64Char (b % 16 * 4 + c / 64) :: base64Char (c % 64) :: base64Encode rest
  | [a, b] => [base64Char (a / 4), base64Char (a % 4 * 16 + b / 16), base64Char (b % 16 * 4), '=']
  | [a] => [base64Char (a / 4), base64Char (a % 4 * 16), '=', '=']
  | [] => []

/-- The upper-case hexadecimal digit of a 4-bit value. -/
def hexChar (v : Nat) : Char := "0123456789ABCDEF".toList.getD v '0'

/-- The percent-encoding that writes every byte as `%XX`. -/
def pctEncode (b : List Nat) : JSString :=
  b.flatMap (fun x => ['%', hexChar (x / 16), hexChar (x % 16)])

/-- The 6-bit values that base64 writes for a byte sequence: four for every
three bytes, three for two trailing bytes, two for one trailing byte. -/
def sextets : List Nat → List Nat
  | a :: b :: c :: rest =>
    (a / 4) :: (a % 4 * 16 + b / 16) :: (b % 16 * 4 + c / 64) :: (c % 64) :: sextets rest
  | [a, b] => [a / 4, a % 4 * 16 + b / 16, b % 16 * 4]
  | [a] => [a / 4, a % 4 * 16]
  | [] => []

/-- The padding base64 appends to a byte sequence. -/
def padding : List Nat → JSString
  | _ :: _ :: _ :: rest => padding rest
  | [_, _] => ['=']
  | [_] => ['=', '=']
  | [] => []

/-! ## content_script.js: the data: branch of the extractBlob handler -/

/-- A `Blob` as the scripts build it with `new Blob([byteArray], { type })`:
the bytes and the `type` option handed to the constructor. -/
structure Blob where
  bytes : List Nat
  type : JSString
  deriving DecidableEq, Repr

/-- The locals `header`, `isBase64`, `mime` and `dataPart` of the handler. -/
structure DataUrlFields where
  header : JSString
  isBase64 : Bool
  mime : JSString
  dataPart : JSString
  deriving DecidableEq, Repr

/-- Lines 189-193 of content_script.js: the split of a `data:` URL into
header and payload.  `header.split(':')[1]` is `undefined` when the header has
no colon, and calling `.split` on it throws a `TypeError`. -/
def dataUrlFields (url : JSString) : Except JSError DataUrlFields :=
  let parts := split url ','
  let header := parts.headD []
  let isBase64 := indexOf header ";base64".toList != -1
  match (split header ':')[1]? with
  | none => .error .typeError
  | some afterColon =>
    let mime := orElse (split afterColon ';').head? "application/octet-stream".toList
    let dataPart := orElse parts[1]? []
    .ok ⟨header, isBase64, mime, dataPart⟩

/-- Lines 194-204: the byte array built from the payload. -/
def dataUrlBytes (f : DataUrlFields) : Except JSError (List Nat) :=
  if f.isBase64 then
    match atob f.dataPart with
    | .error e => .error e
    | .ok binary => .ok (toUint8Array binary)
  else
    match decodeURIComponent f.dataPart with
    | .error e => .error e
    | .ok decoded => .ok (toUint8Array decoded)

/-- Lines 189-205: the blob the handler builds for a `data:` URL, or the
exception thrown inside the `try` block. -/
def dataUrlBlob (url : JSString) : Except JSError Blob :=
  match dataUrlFields url with
  | .error e => .error e
  | .ok f =>
    match dataUrlBytes f with
    | .error e => .error e
    | .ok byteArray => .ok ⟨byteArray, f.mime⟩

/-! ## The reference grammar `data:[mediatype][;base64],payload` -/

/-- The header of the reference grammar: the text before the first comma. -/
def refHeader (url : JSString) : JSString := url.takeWhile (fun c => c != ',')

/-- The payload of the reference grammar: the entire text after the first comma. -/
def refPayload (url : JSString) : JSString := (url.dropWhile (fun c => c != ',')).drop 1

/-- The base64 flag of the reference grammar: the last `;`-separated token of
the header is the literal `base64`. -/
def refIsBase64 (url : JSString) : Bool :=
  (split (refHeader url) ';').getLast? == some "base64".toList

/-- The media type of the reference grammar: the header without the leading
`data:` and without the trailing `;base64` flag. -/
def refMediatype (url : JSString) : JSString :=
  let h := (refHeader url).drop 5
  if refIsBase64 url then h.take (h.length - 7) else h

/-- The blob type of the reference grammar. -/
def refBlobType (url : JSString) : JSString :=
  orElse (some (refMediatype url)) "application/octet-stream".toList

/-! ## content_script.js: suggestFilename -/

/-- The match of `/^data:([^;]+);/` against `url`: the captured group, a
non-empty run of characters other than `;` that follows `data:` and is
followed by `;`. -/
def matchDataMime (url : JSString) : Option JSString :=
  if startsWith url "data:".toList then
    let rest := url.drop 5
    let g := rest.takeWhile (fun c => c != ';')
    if !g.isEmpty && (rest.drop g.length).head? == some ';' then some g else none
  else none

/-- The function `suggestFilename(url)` of content_script.js.  `newURL u base`
is the `pathname` of `new URL(u, base)`, or the exception the constructor
throws; `href` is `location.href`. -/
def suggestFilename (newURL : JSString → JSString → Except JSError JSString) (href : JSString)
    (url : MaybeString) : JSString :=
  match url with
  | none => "download.bin".toList
  | some u =>
    if u.isEmpty then "download.bin".toList
    else if startsWith u "data:".toList then
      let ext :=
        match matchDataMime u with
        | some g => (split g '/').getLastD []
        | none => "bin".toList
      "file.".toList ++ ext
    else if startsWith u "blob:".toList then "blob.bin".toList
    else
      match newURL u href with
      | .error _ => "download.bin".toList
      | .ok pathname =>
        let base := orElse (split pathname '/').getLast? "download".toList
        match decodeURIComponent base with
        | .error _ => "download.bin".toList
        | .ok name => name

/-- The path of an `http://` or `https://` URL: the text from the first `/`
after the authority up to `?` or `#`, or `/` when there is none. -/
def httpPath (u : JSString) : Option JSString :=
  let pathOf := fun (rest : JSString) =>
    let p := (rest.dropWhile (fun c => c != '/' && c != '?' && c != '#')).takeWhile
      (fun c => c != '?' && c != '#')
    if p.isEmpty then "/".toList else p
  if startsWith u "http://".toList then some (pathOf (u.drop 7))
  else if startsWith u "https://".toList then some (pathOf (u.drop 8))
  else none

/-- A model of `new URL(url, base).pathname` on a fragment of the URL standard:
`url` is either an absolute `http(s)://` URL, whose own path is taken, or a
query-only or fragment-only reference (`?...`, `#...`), which keeps the path of
an `http(s)://` base.  The paths are assumed free of dot segments and of
characters that the parser percent-encodes.  Other inputs are outside the
model and are reported as a `TypeError`. -/
def httpURLPathname (url base : JSString) : Except JSError JSString :=
  match httpPath url with
  | some p => .ok p
  | none =>
    if startsWith url "?".toList || startsWith url "#".toList then
      match httpPath base with
      | some p => .ok p
      | none => .error .typeError
    else .error .typeError

/-! ## content_script.js: thumbnail dimensions -/

/-- The built-in `Math.round` on exact rationals: rounding half up. -/
def mathRound (x : ℚ) : ℤ := ⌊x + 1 / 2⌋

/-- Lines 42-51 of content_script.js: the canvas size `buildImageThumbnail`
computes from `img.naturalWidth`, `img.naturalHeight`, in exact rational
arithmetic.  (For a zero dimension JavaScript divides to `Infinity`; the
definition is meant for positive dimensions.) -/
def buildImageThumbnailSize (naturalWidth naturalHeight : ℕ) : ℤ × ℤ :=
  let max : ℚ := 240
  let w : ℚ := naturalWidth
  let h : ℚ := naturalHeight
  if w > max ∨ h > max then
    let scale := min (max / w) (max / h)
    (mathRound (w * scale), mathRound (h * scale))
  else (naturalWidth, naturalHeight)

/-- Lines 87-95 of content_script.js: the canvas size `buildVideoThumbnail`
computes from `video.videoWidth`, `video.videoHeight`; `none` when the function
resolves `null` because a dimension is zero. -/
def buildVideoThumbnailSize (videoWidth videoHeight : ℕ) : Option (ℤ × ℤ) :=
  let max : ℚ := 240
  let w : ℚ := videoWidth
  let h : ℚ := videoHeight
  if videoWidth = 0 ∨ videoHeight = 0 then none
  else if w > max ∨ h > max then
    let scale := min (max / w) (max / h)
    some (mathRound (w * scale), mathRound (h * scale))
  else some (videoWidth, videoHeight)

/-! ## content_script.js: collectMediaCandidates -/

/-- The type hints passed to `pushIf`: the strings 'image', 'video', 'audio'. -/
inductive TypeHint
  | image
  | video
  | audio
  deriving DecidableEq, Repr

/-- An element of `items`: `{ url, typeHint, filename }`. -/
structure Item where
  url : JSString
  typeHint : Option TypeHint
  filename : JSString
  deriving DecidableEq, Repr

/-- An element of `withThumbs`: `{ ...it, thumb }`. -/
structure ThumbItem where
  url : JSString
  typeHint : Option TypeHint
  filename : JSString
  thumb : MaybeString
  deriving DecidableEq, Repr

/-- The variables `items` and `seen` that `pushIf` closes over. -/
structure ScanState where
  items : List Item
  seen : List JSString
  deriving DecidableEq, Repr

/-- The function `pushIf(url, typeHint)` of `collectMediaCandidates`, as a
transition of `items` and `seen`. -/
def pushIf (newURL : JSString → JSString → Except JSError JSString) (href : JSString)
    (st : ScanState) (url : MaybeString) (typeHint : Option TypeHint) : ScanState :=
  match url with
  | none => st
  | some u =>
    if u.isEmpty then st
    else if !looksLikeMedia url && typeHint.isNone then st
    else if st.seen.contains u then st
    else
      ⟨st.items ++ [⟨u, typeHint, suggestFilename newURL href url⟩], st.seen ++ [u]⟩

/-- The values the five `querySelectorAll` scans hand to `pushIf`: for each
element, the value of the URL expression of its `forEach` callback. -/
structure Document where
  imgs : List MaybeString
  videos : List MaybeString
  audios : List MaybeString
  sources : List MaybeString
  anchors : List MaybeString

/-- The calls of `pushIf` in the order lines 144-151 make them. -/
def candidates (doc : Document) : List (MaybeString × Option TypeHint) :=
  doc.imgs.map (fun u => (u, some TypeHint.image)) ++
  doc.videos.map (fun u => (u, some TypeHint.video)) ++
  doc.audios.map (fun u => (u, some TypeHint.audio)) ++
  doc.sources.map (fun u => (u, none)) ++
  doc.anchors.map (fun u => (u, none))

/-- The array `items` after all calls of `pushIf` on a sequence of candidates. -/
def scan (newURL : JSString → JSString → Except JSError JSString) (href : JSString)
    (cands : List (MaybeString × Option TypeHint)) : List Item :=
  (cands.foldl (fun st c => pushIf newURL href st c.1 c.2) ⟨[], []⟩).items

/-- The test `/\.(png|jpg|jpeg|gif|svg)$/i`. -/
def imageExtension (url : JSString) : Bool :=
  [".png".toList, ".jpg".toList, ".jpeg".toList, ".gif".toList, ".svg".toList].any
    (fun e => endsWith (toLowerCase url) e)

/-- The test `/\.(mp4|webm|mov|ogg)$/i`. -/
def videoExtension (url : JSString) : Bool :=
  [".mp4".toList, ".webm".toList, ".mov".toList, ".ogg".toList].any
    (fun e => endsWith (toLowerCase url) e)

/-- The body of the loop of lines 155-170: the thumbnail chosen for an item.
`imageThumb` and `videoThumb` give what awaiting `buildImageThumbnail` and
`buildVideoThumbnail` yields for a URL. -/
def thumbFor (imageThumb videoThumb : JSString → Except JSError MaybeString) (it : Item) :
    MaybeString :=
  if it.typeHint = some TypeHint.image ∨ (!it.url.isEmpty && imageExtension it.url) = true then
    match imageThumb it.url with
    | .ok t => t
    | .error _ => none
  else if it.typeHint = some TypeHint.video ∨ (!it.url.isEmpty && videoExtension it.url) = true then
    match videoThumb it.url with
    | .ok t => t
    | .error _ => none
  else none

/-- The function `collectMediaCandidates()` of content_script.js: the value its
promise resolves to. -/
def collectMediaCandidates (newURL : JSString → JSString → Except JSError JSString)
    (href : JSString) (imageThumb videoThumb : JSString → Except JSError MaybeString)
    (doc : Document) : List ThumbItem :=
  (scan newURL href (candidates doc)).map
    (fun it => ⟨it.url, it.typeHint, it.filename, thumbFor imageThumb videoThumb it⟩)

/-- Whether `pushIf` admits a candidate: its URL is non-empty and it has a type
hint or its URL looks like media. -/
def admitted (c : MaybeString × Option TypeHint) : Bool :=
  truthy c.1 && (c.2.isSome || looksLikeMedia c.1)

/-- First-occurrence de-duplication by URL of a list of candidates, each kept
candidate turned into an item. -/
def firstOccurrences (name : MaybeString → JSString) :
    List (MaybeString × Option TypeHint) → List Item
  | [] => []
  | c :: rest =>
    ⟨c.1.getD [], c.2, name c.1⟩ ::
      firstOccurrences name (rest.filter (fun d => d.1 != c.1))
termination_by l => l.length
decreasing_by
  simp only [List.length_cons]
  exact Nat.lt_succ_of_le (List.length_filter_le _ _)

/-! ## Messages -/

/-- The message tags of the extension. -/
inductive Action
  | collectMedia
  | extractBlob
  | downloadUrl
  | downloadBlob
  | unknown
  deriving DecidableEq, Repr

/-- A message object: its `action` and the fields the listeners read. -/
structure Message where
  action : Action
  url : MaybeString
  filename : MaybeString
  saveAs : Option Bool
  blob : Option Blob
  deriving DecidableEq, Repr

/-- A response object `{ success, id }` or `{ success, error }`. -/
structure Response where
  success : Bool
  id : Option Nat
  error : Option JSString
  deriving DecidableEq, Repr

/-- The argument of `browser.downloads.download`. -/
structure DownloadOptions where
  url : MaybeString
  filename : MaybeString
  saveAs : Bool
  deriving DecidableEq, Repr

/-- What `fetch(url)` resolves to: `ok`, `status`, and what `res.blob()`
settles to. -/
structure FetchResponse where
  ok : Bool
  status : Nat
  blob : Except JSError Blob

/-- The browser as the scripts see it.  A value of `Except JSError α` is the
settled state of a promise (or the completion of a call): `ok v` when it
resolves with `v`, `error e` when it rejects with (or throws) `e`. -/
structure Browser where
  /-- The text `String(err)` of an exception the browser itself creates. -/
  errorText : JSError → JSString
  /-- The API `browser.downloads.download(options)`. -/
  download : DownloadOptions → Except JSError Nat
  /-- The call `URL.createObjectURL(blob)`. -/
  createObjectURL : Option Blob → Except JSError JSString
  /-- The call `fetch(url)`. -/
  fetch : JSString → Except JSError FetchResponse
  /-- The failure, if any, to deliver a message sent with
  `browser.runtime.sendMessage` to the background listener. -/
  deliveryFailure : Message → Option JSError
  /-- The `pathname` of `new URL(url, base)`, or the exception thrown. -/
  newURL : JSString → JSString → Except JSError JSString
  /-- The value of `location.href`. -/
  href : JSString
  /-- What awaiting `buildImageThumbnail(url)` yields. -/
  imageThumb : JSString → Except JSError MaybeString
  /-- What awaiting `buildVideoThumbnail(url)` yields. -/
  videoThumb : JSString → Except JSError MaybeString
  /-- The elements the page scan finds. -/
  document : Document

/-- The conversion `String(err)`; `errorText` gives the text of the exceptions
the browser itself creates. -/
def errString (errorText : JSError → JSString) : JSError → JSString
  | .error message => "Error: ".toList ++ message
  | .platform text => text
  | e => errorText e

/-! ## background.js -/

/-- The listener of background.js: what the promise of the `async` function
settles to; `ok none` is the value `undefined`.  (Logging and the release of the
object URL do not influence the result and are left out.) -/
def backgroundListener (env : Browser) (message : Option Message) :
    Except JSError (Option Response) :=
  let body : Except JSError (Option Response) :=
    match message with
    | none => .ok none
    | some m =>
      if m.action = Action.downloadUrl then
        match env.download ⟨m.url, m.filename, m.saveAs.getD true⟩ with
        | .error err => .error err
        | .ok id => .ok (some ⟨true, some id, none⟩)
      else if m.action = Action.downloadBlob then
        match env.createObjectURL m.blob with
        | .error err => .error err
        | .ok extUrl =>
          match env.download ⟨some extUrl, m.filename, m.saveAs.getD true⟩ with
          | .ok id => .ok (some ⟨true, some id, none⟩)
          | .error err => .error err
      else .ok none
  match body with
  | .ok r => .ok r
  | .error err => .ok (some ⟨false, none, some (errString env.errorText err)⟩)

/-! ## content_script.js: the message listener -/

/-- The call `browser.runtime.sendMessage(msg)` made by the content script: it
rejects when the message cannot be delivered, and otherwise settles as the
background listener does. -/
def runtimeSendMessage (env : Browser) (msg : Message) : Except JSError (Option Response) :=
  match env.deliveryFailure msg with
  | some err => .error err
  | none => backgroundListener env (some msg)

/-- The message `{ action: 'downloadBlob', blob, filename: message.filename,
saveAs: message.saveAs || true }`. -/
def forwardMessage (message : Message) (blob : Blob) : Message :=
  ⟨Action.downloadBlob, none, message.filename, some (message.saveAs.getD false || true), some blob⟩

/-- The chain `sendMessage(...).then(res => res).catch(err => ({ success: false,
error: String(err) }))`. -/
def forward (env : Browser) (message : Message) (blob : Blob) :
    Except JSError (Option Response) :=
  match runtimeSendMessage env (forwardMessage message blob) with
  | .ok res => .ok res
  | .error err => .ok (some ⟨false, none, some (errString env.errorText err)⟩)

/-- What the listener of content_script.js returns. -/
inductive ListenerResult
  /-- The listener returned `undefined`. -/
  | undefined
  /-- The listener returned the promise of `collectMediaCandidates()`, which
  resolves with the given list. -/
  | media (items : List ThumbItem)
  /-- The listener returned a promise that settles as given. -/
  | promise (settled : Except JSError (Option Response))
  deriving DecidableEq

/-- The `extractBlob` branch of the listener of content_script.js (lines
181-222). The outer `Except` is the completion of the synchronous call. -/
def extractBlob (env : Browser) (message : Message) : Except JSError ListenerResult :=
  match message.url with
  | none => .ok (.promise (.ok (some ⟨false, none, some "no url".toList⟩)))
  | some url =>
    if url.isEmpty then .ok (.promise (.ok (some ⟨false, none, some "no url".toList⟩)))
    else if startsWith url "data:".toList then
      match dataUrlBlob url with
      | .ok blob => .ok (.promise (forward env message blob))
      | .error err => .ok (.promise (.ok (some ⟨false, none, some (errString env.errorText err)⟩)))
    else
      let fetched : Except JSError (Option Response) :=
        match env.fetch url with
        | .error err => .error err
        | .ok res =>
          if !res.ok then
            .error (.error ("fetch failed: ".toList ++ (Nat.repr res.status).toList))
          else
            match res.blob with
            | .error err => .error err
            | .ok blob => forward env message blob
      match fetched with
      | .ok r => .ok (.promise (.ok r))
      | .error err => .ok (.promise (.ok (some ⟨false, none, some (errString env.errorText err)⟩)))

/-- The listener of content_script.js. -/
def contentListener (env : Browser) (message : Option Message) : Except JSError ListenerResult :=
  match message with
  | none => .ok .undefined
  | some m =>
    if m.action = Action.collectMedia then
      .ok (.media (collectMediaCandidates env.newURL env.href env.imageThumb env.videoThumb
        env.document))
    else if m.action = Action.extractBlob then extractBlob env m
    else .ok .undefined

/-- The object `{ success: false, error: String(err) }`. -/
def failure (env : Browser) (err : JSError) : Response :=
  ⟨false, none, some (errString env.errorText err)⟩

/-- The answer `r` to a request whose blob was forwarded: the failure object
when the forwarded message cannot be delivered, and otherwise exactly the
response of the background listener to the forwarded `downloadBlob` message. -/
def Forwarded (env : Browser) (message : Message) (blob : Blob) (r : Response) : Prop :=
  (∀ err, env.deliveryFailure (forwardMessage message blob) = some err → r = failure env err) ∧
  (env.deliveryFailure (forwardMessage message blob) = none →
    backgroundListener env (some (forwardMessage message blob)) = .ok (some r))

/-! ## popup.js: initiateDownload -/

/-- Where the popup sends a message: to the extension (`browser.runtime`) or
to a tab (`browser.tabs`). -/
inductive Target
  | runtime
  | tab (tabId : Nat)
  deriving DecidableEq, Repr

/-- The popup as `initiateDownload` changes it: the text of the status element
and the messages sent so far. -/
structure Popup where
  status : JSString
  sent : List (Target × Message)
  deriving DecidableEq, Repr

/-- What the two `sendMessage` calls of the popup settle to. -/
structure Messaging where
  errorText : JSError → JSString
  runtimeSendMessage : Message → Except JSError (Option Response)
  tabsSendMessage : Nat → Message → Except JSError (Option Response)

/-- An item as the popup receives it; `filename` may be absent. -/
structure PopupItem where
  url : JSString
  filename : MaybeString
  deriving DecidableEq, Repr

/-- The function `initiateDownload(item, tabId)` of popup.js: the popup
afterwards, and the settled state of the promise the function returns. -/
def initiateDownload (env : Messaging) (item : PopupItem) (tabId : Nat) (st : Popup) :
    Popup × Except JSError Unit :=
  let url := item.url
  let filename := orElse item.filename "download.bin".toList
  if startsWith url "http://".toList || startsWith url "https://".toList ||
      startsWith url "data:".toList then
    let msg : Message := ⟨Action.downloadUrl, some url, some filename, some true, none⟩
    let st1 : Popup := ⟨st.status, st.sent ++ [(Target.runtime, msg)]⟩
    match env.runtimeSendMessage msg with
    | .error err => (st1, .error err)
    | .ok resp =>
      if (resp.map (fun r => r.success)).getD false then
        (⟨"Download started (Save As dialog).".toList, st1.sent⟩, .ok ())
      else (⟨"Failed to start download.".toList, st1.sent⟩, .ok ())
  else if startsWith url "blob:".toList || startsWith url "data:".toList then
    let msg : Message := ⟨Action.extractBlob, some url, some filename, some true, none⟩
    let st1 : Popup := ⟨"Extracting blob from page…".toList, st.sent ++ [(Target.tab tabId, msg)]⟩
    match env.tabsSendMessage tabId msg with
    | .error err => (⟨"Failed to extract blob: ".toList ++ errString env.errorText err, st1.sent⟩, .ok ())
    | .ok res =>
      if (res.map (fun r => r.success)).getD false then
        (⟨"Download started.".toList, st1.sent⟩, .ok ())
      else
        let detail :=
          match res with
          | some r => orElse r.error "unknown".toList
          | none => "unknown".toList
        (⟨"Failed to extract blob: ".toList ++ detail, st1.sent⟩, .ok ())
  else (⟨"Unsupported URL scheme for download.".toList, st.sent⟩, .ok ())

/-! ## A sample browser -/

/-- A browser in which every call succeeds: downloads get the id 7, object
URLs are `blob:x`, and `fetch` yields an empty blob. -/
def sampleBrowser : Browser where
  errorText := fun _ => "error".toList
  download := fun _ => .ok 7
  createObjectURL := fun _ => .ok "blob:x".toList
  fetch := fun _ => .ok ⟨true, 200, .ok ⟨[], []⟩⟩
  deliveryFailure := fun _ => none
  newURL := httpURLPathname
  href := "https://example.com/page".toList
  imageThumb := fun _ => .ok none
  videoThumb := fun _ => .ok none
  document := ⟨[], [], [], [], []⟩

/-- A popup whose two `sendMessage` calls resolve with `{success: true, id: 7}`. -/
def sampleMessaging : Messaging where
  errorText := fun _ => "error".toList
  runtimeSendMessage := fun _ => .ok (some ⟨true, some 7, none⟩)
  tabsSendMessage := fun _ _ => .ok (some ⟨true, some 7, none⟩)

/-! ## Lemmas on strings -/

theorem startsWith_iff (s p : JSString) : startsWith s p = true ↔ p <+: s := by
  unfold startsWith
  exact List.isPrefixOf_iff_prefix

theorem includes_iff (s sub : JSString) : includes s sub = true ↔ sub <:+: s := by
  induction s with
  | nil =>
    simp [includes, List.isEmpty_iff]
  | cons c t ih =>
    rw [includes, Bool.or_eq_true, ih, startsWith_iff, List.infix_cons_iff]

theorem split_ne_nil (s : JSString) (sep : Char) : split s sep ≠ [] := by
  cases s with
  | nil => simp [split]
  | cons c t =>
    rw [split]
    split
    · simp
    · split <;> simp

theorem split_sep_cons (t : JSString) (sep : Char) :
    split (sep :: t) sep = [] :: split t sep := by
  rw [split]
  simp

theorem split_cons_of_ne (c : Char) (t : JSString) (sep : Char) (h : c ≠ sep) :
    split (c :: t) sep =
      (c :: (split t sep).headD []) :: (split t sep).tail := by
  rw [split]
  have hc : (c == sep) = false := by simpa using h
  simp only [hc, Bool.false_eq_true, if_false]
  cases hs : split t sep with
  | nil => exact absurd hs (split_ne_nil t sep)
  | cons p ps => rfl

theorem split_append_sep (h p : JSString) (sep : Char) (hh : sep ∉ h) :
    split (h ++ sep :: p) sep = h :: split p sep := by
  induction h with
  | nil => exact split_sep_cons p sep
  | cons c t ih =>
    have hc : c ≠ sep := fun e => hh (by simp [e])
    have ht : sep ∉ t := fun e => hh (List.mem_cons_of_mem _ e)
    rw [List.cons_append, split_cons_of_ne c _ sep hc, ih ht]
    rfl

theorem split_of_not_mem (p : JSString) (sep : Char) (hp : sep ∉ p) : split p sep = [p] := by
  induction p with
  | nil => rfl
  | cons c t ih =>
    have hc : c ≠ sep := fun e => hp (by simp [e])
    have ht : sep ∉ t := fun e => hp (List.mem_cons_of_mem _ e)
    rw [split_cons_of_ne c _ sep hc, ih ht]
    rfl

theorem split_head (s : JSString) (sep : Char) :
    (split s sep).head? = some (s.takeWhile (fun c => c != sep)) := by
  induction s with
  | nil => rfl
  | cons c t ih =>
    by_cases hc : c = sep
    · subst hc
      rw [split_sep_cons]
      simp
    · rw [split_cons_of_ne c t sep hc]
      have hb : (c != sep) = true := by simpa using hc
      simp only [List.head?_cons, List.takeWhile_cons, hb, if_true]
      cases hs : split t sep with
      | nil => exact absurd hs (split_ne_nil t sep)
      | cons q qs =>
        rw [hs] at ih
        simp only [List.head?_cons, Option.some.injEq] at ih
        simp [ih]

theorem indexOf_ge (s sub : JSString) : -1 ≤ indexOf s sub := by
  induction s with
  | nil =>
    rw [indexOf]
    split <;> omega
  | cons c t ih =>
    rw [indexOf]
    split
    · omega
    · simp only
      split <;> omega

theorem indexOf_ne_iff (s sub : JSString) :
    (indexOf s sub != -1) = true ↔ sub <:+: s := by
  rw [← includes_iff]
  induction s with
  | nil =>
    rw [indexOf, includes]
    cases sub <;> simp
  | cons c t ih =>
    rw [indexOf, includes]
    by_cases hp : startsWith (c :: t) sub = true
    · simp [hp]
    · have hge := indexOf_ge t sub
      simp only [hp, Bool.false_eq_true, if_false, Bool.false_or]
      rw [← ih]
      by_cases hr : indexOf t sub = -1
      · simp [hr]
      · have h1 : (indexOf t sub == -1) = false := by simpa using hr
        simp only [h1, Bool.false_eq_true, if_false, bne_iff_ne, ne_eq]
        constructor
        · intro _
          exact hr
        · intro _
          omega

theorem orElse_some_nil (x : JSString) : orElse (some x) [] = x := by
  cases x <;> rfl

/-! ## looksLikeMedia -/

/-- C4 (counterexample): the URL `https://example.com/clip.mp4.html` ends with
none of the listed extensions and has no `blob:`/`data:` prefix, yet
`looksLikeMedia` accepts it, because `.mp4` occurs inside it. -/
theorem looksLikeMedia_accepts_inner_extension :
    ¬ (looksLikeMedia (some "https://example.com/clip.mp4.html".toList) = true ↔
        specLooksLikeMedia "https://example.com/clip.mp4.html".toList = true) := by
  decide

/-- C4 (amended): `looksLikeMedia` is false for the absent and for the empty
URL, and for every URL string `u` it is true if and only if the lower-cased `u`
contains one of the listed extensions anywhere, or begins with `blob:` or
`data:`. -/
theorem looksLikeMedia_iff_contains :
    looksLikeMedia none = false ∧ looksLikeMedia (some []) = false ∧
    ∀ u : JSString, looksLikeMedia (some u) = true ↔
      ((∃ e ∈ extMedia, e <:+: toLowerCase u) ∨ "blob:".toList <+: toLowerCase u ∨
        "data:".toList <+: toLowerCase u) := by
  refine ⟨rfl, rfl, fun u => ?_⟩
  have hany : (extMedia.any (fun e => includes (toLowerCase u) e)) = true ↔
      ∃ e ∈ extMedia, e <:+: toLowerCase u := by
    simp only [List.any_eq_true, includes_iff]
  cases u with
  | nil =>
    constructor
    · intro h
      exact absurd h (by decide)
    · intro h
      exfalso
      rcases h with ⟨e, he, hi⟩ | hp | hp
      · have : e = [] := List.eq_nil_of_infix_nil hi
        subst this
        exact absurd he (by decide)
      · exact absurd (List.eq_nil_of_prefix_nil hp) (by decide)
      · exact absurd (List.eq_nil_of_prefix_nil hp) (by decide)
  | cons c t =>
    simp only [looksLikeMedia, List.isEmpty_cons, Bool.false_eq_true, if_false]
    by_cases h1 : (extMedia.any (fun e => includes (toLowerCase (c :: t)) e)) = true
    · simp only [h1, if_true, true_iff]
      exact Or.inl (hany.mp h1)
    · simp only [h1, if_false, Bool.false_eq_true]
      rw [hany] at h1
      simp only [Bool.or_eq_true, startsWith_iff]
      constructor
      · intro h
        split at h
        · rename_i hp
          exact Or.inr hp
        · exact absurd h (by simp)
      · intro h
        rcases h with h | h
        · exact absurd h h1
        · rw [if_pos h]

/-! ## Thumbnail dimensions -/

theorem mathRound_le_240 {x : ℚ} (hx : x ≤ 240) : mathRound x ≤ 240 := by
  unfold mathRound
  have h : ⌊x + 1 / 2⌋ < 241 := by
    rw [Int.floor_lt]
    push_cast
    linarith
  omega

theorem mathRound_240 : mathRound 240 = 240 := by
  unfold mathRound
  rw [Int.floor_eq_iff]
  constructor <;> norm_num

/-- The scaled pair when the first dimension is the larger one. -/
theorem scaled_of_le {a b : ℚ} (ha : 0 < a) (hb : 0 < b) (hba : b ≤ a) :
    a * min (240 / a) (240 / b) = 240 ∧ b * min (240 / a) (240 / b) ≤ 240 := by
  have hmin : min (240 / a) (240 / b) = 240 / a := by
    apply min_eq_left
    exact div_le_div_of_nonneg_left (by norm_num) hb hba
  rw [hmin]
  constructor
  · field_simp
  · rw [← mul_div_assoc, div_le_iff₀ ha]
    nlinarith

theorem scaled_of_ge {a b : ℚ} (ha : 0 < a) (hb : 0 < b) (hab : a ≤ b) :
    a * min (240 / a) (240 / b) ≤ 240 ∧ b * min (240 / a) (240 / b) = 240 := by
  have h := scaled_of_le hb ha hab
  rw [min_comm] at h
  exact ⟨h.2, h.1⟩

theorem imageSize_scaled (w h : ℕ) (hw : 0 < w) (hh : 0 < h) (hbig : 240 < w ∨ 240 < h) :
    (buildImageThumbnailSize w h).1 ≤ 240 ∧ (buildImageThumbnailSize w h).2 ≤ 240 ∧
      max (buildImageThumbnailSize w h).1 (buildImageThumbnailSize w h).2 = 240 := by
  have hwq : (0 : ℚ) < w := by exact_mod_cast hw
  have hhq : (0 : ℚ) < h := by exact_mod_cast hh
  have hc : ((w : ℚ) > 240 ∨ (h : ℚ) > 240) := by
    rcases hbig with hb | hb
    · left; exact_mod_cast hb
    · right; exact_mod_cast hb
  simp only [buildImageThumbnailSize, if_pos hc]
  rcases le_total (h : ℚ) (w : ℚ) with hle | hle
  · obtain ⟨e1, e2⟩ := scaled_of_le hwq hhq hle
    rw [e1, mathRound_240]
    have := mathRound_le_240 e2
    exact ⟨le_refl _, this, max_eq_left this⟩
  · obtain ⟨e1, e2⟩ := scaled_of_ge hwq hhq hle
    rw [e2, mathRound_240]
    have := mathRound_le_240 e1
    exact ⟨this, le_refl _, max_eq_right this⟩

theorem imageSize_small (w h : ℕ) (hw : w ≤ 240) (hh : h ≤ 240) :
    buildImageThumbnailSize w h = ((w : ℤ), (h : ℤ)) := by
  have hc : ¬ ((w : ℚ) > 240 ∨ (h : ℚ) > 240) := by
    intro hc
    rcases hc with hb | hb
    · have : 240 < w := by exact_mod_cast hb
      omega
    · have : 240 < h := by exact_mod_cast hb
      omega
  simp only [buildImageThumbnailSize, if_neg hc]

/-- C9: for positive source dimensions the canvas dimensions computed by
`buildImageThumbnail` are both at most 240, are the source dimensions when
both of these are at most 240, have 240 as their larger one when a source
dimension exceeds 240, and `buildVideoThumbnail` computes the same pair. -/
theorem thumbnail_size_bound (w h : ℕ) (hw : 0 < w) (hh : 0 < h) :
    (buildImageThumbnailSize w h).1 ≤ 240 ∧ (buildImageThumbnailSize w h).2 ≤ 240 ∧
    (w ≤ 240 → h ≤ 240 → buildImageThumbnailSize w h = ((w : ℤ), (h : ℤ))) ∧
    (240 < w ∨ 240 < h →
      max (buildImageThumbnailSize w h).1 (buildImageThumbnailSize w h).2 = 240) ∧
    buildVideoThumbnailSize w h = some (buildImageThumbnailSize w h) := by
  refine ⟨?_, ?_, imageSize_small w h, fun hb => (imageSize_scaled w h hw hh hb).2.2, ?_⟩
  · by_cases hb : 240 < w ∨ 240 < h
    · exact (imageSize_scaled w h hw hh hb).1
    · rw [imageSize_small w h (by omega) (by omega)]
      show (w : ℤ) ≤ 240
      omega
  · by_cases hb : 240 < w ∨ 240 < h
    · exact (imageSize_scaled w h hw hh hb).2.1
    · rw [imageSize_small w h (by omega) (by omega)]
      show (h : ℤ) ≤ 240
      omega
  · have hz : ¬ (w = 0 ∨ h = 0) := by omega
    simp only [buildVideoThumbnailSize, buildImageThumbnailSize, if_neg hz]
    split <;> rfl

/-- C9 (witness): a 1000 x 3 source. -/
theorem thumbnail_size_bound_witness :
    (buildImageThumbnailSize 1000 3).1 ≤ 240 ∧ (buildImageThumbnailSize 1000 3).2 ≤ 240 ∧
    (1000 ≤ 240 → 3 ≤ 240 → buildImageThumbnailSize 1000 3 = (((1000 : ℕ) : ℤ), ((3 : ℕ) : ℤ))) ∧
    (240 < 1000 ∨ 240 < 3 →
      max (buildImageThumbnailSize 1000 3).1 (buildImageThumbnailSize 1000 3).2 = 240) ∧
    buildVideoThumbnailSize 1000 3 = some (buildImageThumbnailSize 1000 3) :=
  thumbnail_size_bound 1000 3 (by decide) (by decide)

/-! ## collectMediaCandidates -/

theorem firstOccurrences_cons (name : MaybeString → JSString)
    (c : MaybeString × Option TypeHint) (rest : List (MaybeString × Option TypeHint)) :
    firstOccurrences name (c :: rest) =
      ⟨c.1.getD [], c.2, name c.1⟩ ::
        firstOccurrences name (rest.filter (fun d => d.1 != c.1)) := by
  rw [firstOccurrences]

theorem pushIf_of_not_admitted (newURL : JSString → JSString → Except JSError JSString)
    (href : JSString) (st : ScanState) (c : MaybeString × Option TypeHint)
    (h : admitted c = false) : pushIf newURL href st c.1 c.2 = st := by
  obtain ⟨url, hint⟩ := c
  cases url with
  | none => rfl
  | some u =>
    cases u with
    | nil => rfl
    | cons a t =>
      simp only [admitted, truthy, List.isEmpty_cons, Bool.not_false, Bool.true_and,
        Bool.or_eq_false_iff] at h
      simp only [pushIf, List.isEmpty_cons, Bool.false_eq_true, if_false, h.2, Bool.not_false,
        Bool.true_and]
      have : hint.isNone = true := by
        cases hint with
        | none => rfl
        | some x => simp at h
      simp [this]

theorem pushIf_of_admitted (newURL : JSString → JSString → Except JSError JSString)
    (href : JSString) (st : ScanState) (c : MaybeString × Option TypeHint)
    (h : admitted c = true) :
    ∃ u, c.1 = some u ∧ pushIf newURL href st c.1 c.2 =
      if st.seen.contains u then st
      else ⟨st.items ++ [⟨u, c.2, suggestFilename newURL href c.1⟩], st.seen ++ [u]⟩ := by
  obtain ⟨url, hint⟩ := c
  cases url with
  | none => simp [admitted, truthy] at h
  | some u =>
    cases u with
    | nil => simp [admitted, truthy] at h
    | cons a t =>
      refine ⟨a :: t, rfl, ?_⟩
      simp only [admitted, truthy, List.isEmpty_cons, Bool.not_false, Bool.true_and,
        Bool.or_eq_true] at h
      have hc : (!looksLikeMedia (some (a :: t)) && hint.isNone) = false := by
        rcases h with h | h
        · cases hint with
          | none => simp at h
          | some x => simp
        · simp [h]
      simp only [pushIf, List.isEmpty_cons, Bool.false_eq_true, if_false, hc]

/-- The refinement invariant of the scan: from any state, the items after
the remaining calls are the items so far followed by the first occurrences
of the admitted candidates whose URL was not seen. -/
theorem scan_from (newURL : JSString → JSString → Except JSError JSString) (href : JSString)
    (cands : List (MaybeString × Option TypeHint)) (st : ScanState) :
    (cands.foldl (fun st c => pushIf newURL href st c.1 c.2) st).items =
      st.items ++ firstOccurrences (suggestFilename newURL href)
        ((cands.filter admitted).filter (fun d => decide (d.1 ∉ st.seen.map some))) := by
  induction cands generalizing st with
  | nil =>
    simp only [List.foldl_nil, List.filter_nil]
    rw [firstOccurrences]
    simp
  | cons c cs ih =>
    rw [List.foldl_cons, ih]
    cases hadm : admitted c with
    | false =>
      rw [pushIf_of_not_admitted newURL href st c hadm]
      simp only [List.filter_cons, hadm, Bool.false_eq_true, if_false]
    | true =>
      obtain ⟨u, hu, hpush⟩ := pushIf_of_admitted newURL href st c hadm
      rw [hpush]
      by_cases hseen : st.seen.contains u = true
      · rw [if_pos hseen]
        have hmem : c.1 ∈ st.seen.map some := by
          rw [hu]
          exact List.mem_map_of_mem _ ((by simpa using hseen))
        simp only [List.filter_cons, hadm, if_true]
        rw [if_neg (by simpa using hmem)]
      · rw [if_neg hseen]
        have hmem : c.1 ∉ st.seen.map some := by
          rw [hu]
          intro hm
          rcases List.mem_map.mp hm with ⟨v, hv, hvu⟩
          have : v = u := Option.some.inj hvu
          subst this
          exact hseen (by simpa using hv)
        simp only [List.filter_cons, hadm, if_true]
        rw [if_pos (by simpa using hmem), firstOccurrences_cons, hu]
        simp only [Option.getD_some, List.append_assoc, List.singleton_append, List.filter_filter]
        congr 3
        apply List.filter_congr
        intro d _
        simp only [List.map_append, List.map_cons, List.map_nil, List.mem_append,
          List.mem_singleton, not_or]
        by_cases h1 : d.1 = some u
        · simp [h1]
        · simp [h1]

/-- The invariant of `pushIf`: `seen` lists the URLs of `items`, without
repetition. -/
theorem pushIf_invariant (newURL : JSString → JSString → Except JSError JSString)
    (href : JSString) (st : ScanState) (url : MaybeString) (hint : Option TypeHint)
    (h : st.seen = st.items.map (fun it => it.url) ∧ st.seen.Nodup) :
    (pushIf newURL href st url hint).seen =
        (pushIf newURL href st url hint).items.map (fun it => it.url) ∧
      (pushIf newURL href st url hint).seen.Nodup := by
  unfold pushIf
  split
  · exact h
  · rename_i u
    split
    · exact h
    · split
      · exact h
      · split
        · exact h
        · rename_i hnot
          constructor
          · simp [h.1]
          · have hnm : u ∉ st.seen := fun hm => hnot (by simpa using hm)
            exact List.Nodup.append h.2 (List.nodup_singleton u) (by simpa using hnm)

theorem scan_invariant (newURL : JSString → JSString → Except JSError JSString)
    (href : JSString) (cands : List (MaybeString × Option TypeHint)) (st : ScanState)
    (h : st.seen = st.items.map (fun it => it.url) ∧ st.seen.Nodup) :
    ((cands.foldl (fun st c => pushIf newURL href st c.1 c.2) st).items.map
      (fun it => it.url)).Nodup := by
  induction cands generalizing st with
  | nil =>
    rw [List.foldl_nil, ← h.1]
    exact h.2
  | cons c cs ih =>
    rw [List.foldl_cons]
    exact ih _ (pushIf_invariant newURL href st c.1 c.2 h)

/-- C10: the list returned by `collectMediaCandidates` has no two items with
the same URL; a candidate is admitted exactly when its URL is non-empty and it
has a type hint or its URL looks like media; the scanned items are the first
occurrences of the admitted candidates in scan order, each with the type hint
of that occurrence and `suggestFilename` of its URL as file name; and adding
thumbnails keeps length, order, URL, type hint and file name. -/
theorem collectMedia_first_occurrences
    (newURL : JSString → JSString → Except JSError JSString) (href : JSString)
    (imageThumb videoThumb : JSString → Except JSError MaybeString) :
    (∀ c : MaybeString × Option TypeHint, admitted c = true ↔
      ∃ u, c.1 = some u ∧ u ≠ [] ∧ (c.2 ≠ none ∨ looksLikeMedia c.1 = true)) ∧
    (∀ cands : List (MaybeString × Option TypeHint),
      ((scan newURL href cands).map (fun it => it.url)).Nodup ∧
      scan newURL href cands =
        firstOccurrences (suggestFilename newURL href) (cands.filter admitted)) ∧
    (∀ doc : Document,
      ((collectMediaCandidates newURL href imageThumb videoThumb doc).map
        (fun t => t.url)).Nodup ∧
      (collectMediaCandidates newURL href imageThumb videoThumb doc).length =
        (scan newURL href (candidates doc)).length ∧
      (collectMediaCandidates newURL href imageThumb videoThumb doc).map
        (fun t => (⟨t.url, t.typeHint, t.filename⟩ : Item)) =
        scan newURL href (candidates doc)) := by
  refine ⟨?_, ?_, ?_⟩
  · rintro ⟨url, hint⟩
    cases url with
    | none => simp [admitted, truthy]
    | some u =>
      cases u with
      | nil => simp [admitted, truthy]
      | cons a t =>
        cases hint with
        | none => simp [admitted, truthy]
        | some x => simp [admitted, truthy]
  · intro cands
    constructor
    · exact scan_invariant newURL href cands ⟨[], []⟩ ⟨rfl, List.nodup_nil⟩
    · have h := scan_from newURL href cands ⟨[], []⟩
      simp only [List.map_nil, List.not_mem_nil, not_false_eq_true, decide_True,
        List.filter_true, List.nil_append] at h
      exact h
  · intro doc
    have hn := scan_invariant newURL href (candidates doc) ⟨[], []⟩ ⟨rfl, List.nodup_nil⟩
    refine ⟨?_, ?_, ?_⟩
    · simpa [collectMediaCandidates, scan, Function.comp_def] using hn
    · simp [collectMediaCandidates]
    · simp [collectMediaCandidates, Function.comp_def]

/-! ## The background listener -/

/-- C6: for a message with action `downloadUrl` or `downloadBlob` the promise
of the background listener resolves to a response object and never rejects;
the response is `{success: true, id}` when `browser.downloads.download`
resolves with `id`, and `{success: false, error: String(err)}` when
`browser.downloads.download` or `URL.createObjectURL` fails with `err`. -/
theorem background_download_never_rejects (env : Browser) (m : Message)
    (ha : m.action = Action.downloadUrl ∨ m.action = Action.downloadBlob) :
    (∃ r : Response, backgroundListener env (some m) = .ok (some r)) ∧
    (m.action = Action.downloadUrl →
      (∀ id, env.download ⟨m.url, m.filename, m.saveAs.getD true⟩ = .ok id →
        backgroundListener env (some m) = .ok (some ⟨true, some id, none⟩)) ∧
      (∀ err, env.download ⟨m.url, m.filename, m.saveAs.getD true⟩ = .error err →
        backgroundListener env (some m) =
          .ok (some ⟨false, none, some (errString env.errorText err)⟩))) ∧
    (m.action = Action.downloadBlob →
      (∀ err, env.createObjectURL m.blob = .error err →
        backgroundListener env (some m) =
          .ok (some ⟨false, none, some (errString env.errorText err)⟩)) ∧
      (∀ extUrl, env.createObjectURL m.blob = .ok extUrl →
        (∀ id, env.download ⟨some extUrl, m.filename, m.saveAs.getD true⟩ = .ok id →
          backgroundListener env (some m) = .ok (some ⟨true, some id, none⟩)) ∧
        (∀ err, env.download ⟨some extUrl, m.filename, m.saveAs.getD true⟩ = .error err →
          backgroundListener env (some m) =
            .ok (some ⟨false, none, some (errString env.errorText err)⟩)))) := by
  have hne : ¬ (Action.downloadBlob = Action.downloadUrl) := by decide
  have hurl : m.action = Action.downloadUrl →
      (∀ id, env.download ⟨m.url, m.filename, m.saveAs.getD true⟩ = .ok id →
        backgroundListener env (some m) = .ok (some ⟨true, some id, none⟩)) ∧
      (∀ err, env.download ⟨m.url, m.filename, m.saveAs.getD true⟩ = .error err →
        backgroundListener env (some m) =
          .ok (some ⟨false, none, some (errString env.errorText err)⟩)) := by
    intro ha
    constructor
    · intro id h
      simp only [backgroundListener, ha, if_true, h]
    · intro err h
      simp only [backgroundListener, ha, if_true, h]
  have hblob : m.action = Action.downloadBlob →
      (∀ err, env.createObjectURL m.blob = .error err →
        backgroundListener env (some m) =
          .ok (some ⟨false, none, some (errString env.errorText err)⟩)) ∧
      (∀ extUrl, env.createObjectURL m.blob = .ok extUrl →
        (∀ id, env.download ⟨some extUrl, m.filename, m.saveAs.getD true⟩ = .ok id →
          backgroundListener env (some m) = .ok (some ⟨true, some id, none⟩)) ∧
        (∀ err, env.download ⟨some extUrl, m.filename, m.saveAs.getD true⟩ = .error err →
          backgroundListener env (some m) =
            .ok (some ⟨false, none, some (errString env.errorText err)⟩))) := by
    intro ha
    constructor
    · intro err h
      simp only [backgroundListener, ha, if_true, if_neg hne, h]
    · intro extUrl hu
      constructor
      · intro id h
        simp only [backgroundListener, ha, if_true, if_neg hne, hu, h]
      · intro err h
        simp only [backgroundListener, ha, if_true, if_neg hne, hu, h]
  refine ⟨?_, hurl, hblob⟩
  rcases ha with ha | ha
  · cases hd : env.download ⟨m.url, m.filename, m.saveAs.getD true⟩ with
    | error err => exact ⟨_, (hurl ha).2 err hd⟩
    | ok id => exact ⟨_, (hurl ha).1 id hd⟩
  · cases hc : env.createObjectURL m.blob with
    | error err => exact ⟨_, (hblob ha).1 err hc⟩
    | ok extUrl =>
      cases hd : env.download ⟨some extUrl, m.filename, m.saveAs.getD true⟩ with
      | error err => exact ⟨_, ((hblob ha).2 extUrl hc).2 err hd⟩
      | ok id => exact ⟨_, ((hblob ha).2 extUrl hc).1 id hd⟩

/-- C6 (witness): a `downloadBlob` message in a browser where every call
succeeds. -/
theorem background_download_never_rejects_witness :
    ∃ r : Response, backgroundListener sampleBrowser
      (some ⟨Action.downloadBlob, none, some "a.bin".toList, none, some ⟨[1, 2], []⟩⟩) =
        .ok (some r) :=
  (background_download_never_rejects sampleBrowser
    ⟨Action.downloadBlob, none, some "a.bin".toList, none, some ⟨[1, 2], []⟩⟩ (Or.inr rfl)).1

/-! ## The popup -/

/-- C8 (counterexample): for the URL `ftp://host/file.bin` the function sends
no message at all, so it does not send exactly one message for every URL; and
for an item whose `filename` is the empty string the message carries
`download.bin`, not `item.filename`. -/
theorem initiateDownload_not_always_one_message :
    (initiateDownload sampleMessaging ⟨"ftp://host/file.bin".toList, some "file.bin".toList⟩ 1
        ⟨[], []⟩).1.sent.length ≠ 1 ∧
    (initiateDownload sampleMessaging ⟨"https://host/file.bin".toList, some []⟩ 1 ⟨[], []⟩).1.sent ≠
      [(Target.runtime, ⟨Action.downloadUrl, some "https://host/file.bin".toList, some [],
        some true, none⟩)] := by
  decide

theorem startsWith_blob_excludes (url : JSString) (h : startsWith url "blob:".toList = true) :
    (startsWith url "http://".toList || startsWith url "https://".toList ||
      startsWith url "data:".toList) = false := by
  cases url with
  | nil => exact absurd h (by decide)
  | cons c t =>
    have hc : c = 'b' := by
      simp only [startsWith] at h
      have h2 : ("blob:".toList).isPrefixOf (c :: t) = true := h
      simp only [String.toList, List.isPrefixOf, Bool.and_eq_true, beq_iff_eq] at h2
      exact h2.1.symm
    subst hc
    simp [startsWith, String.toList, List.isPrefixOf]

/-- C8 (amended): `initiateDownload` sends at most one message.  If the URL
starts with `http://`, `https://` or `data:` it sends exactly one message,
`downloadUrl` to the background, with `saveAs` true and with the file name
`item.filename`, or `download.bin` when that is absent or empty, and it sends
no `extractBlob`; if the URL starts with `blob:` it sends exactly one message,
`extractBlob` to the tab, with the same file name and `saveAs` true; for every
other URL it sends no message and sets the status to
`Unsupported URL scheme for download.`. -/
theorem initiateDownload_dispatch (env : Messaging) (item : PopupItem) (tabId : Nat)
    (st : Popup) :
    ((startsWith item.url "http://".toList = true ∨ startsWith item.url "https://".toList = true ∨
        startsWith item.url "data:".toList = true) →
      (initiateDownload env item tabId st).1.sent = st.sent ++
        [(Target.runtime, ⟨Action.downloadUrl, some item.url,
          some (orElse item.filename "download.bin".toList), some true, none⟩)]) ∧
    (startsWith item.url "blob:".toList = true →
      (initiateDownload env item tabId st).1.sent = st.sent ++
        [(Target.tab tabId, ⟨Action.extractBlob, some item.url,
          some (orElse item.filename "download.bin".toList), some true, none⟩)]) ∧
    ((startsWith item.url "http://".toList = false ∧ startsWith item.url "https://".toList = false ∧
        startsWith item.url "data:".toList = false ∧ startsWith item.url "blob:".toList = false) →
      (initiateDownload env item tabId st).1.sent = st.sent ∧
      (initiateDownload env item tabId st).1.status =
        "Unsupported URL scheme for download.".toList) ∧
    (orElse none "download.bin".toList = "download.bin".toList ∧
      orElse (some []) "download.bin".toList = "download.bin".toList ∧
      ∀ c t, orElse (some (c :: t)) "download.bin".toList = c :: t) := by
  refine ⟨?_, ?_, ?_, rfl, rfl, fun _ _ => rfl⟩
  · intro h
    have hc : (startsWith item.url "http://".toList || startsWith item.url "https://".toList ||
        startsWith item.url "data:".toList) = true := by
      rcases h with h | h | h <;> simp only [h, Bool.or_true, Bool.true_or]
    simp only [initiateDownload, hc, if_true]
    cases env.runtimeSendMessage _ with
    | error err => rfl
    | ok resp =>
      simp only
      split <;> rfl
  · intro h
    have hc := startsWith_blob_excludes item.url h
    simp only [initiateDownload, hc, h, Bool.true_or, if_true, Bool.false_eq_true, if_false]
    cases env.tabsSendMessage tabId _ with
    | error err => rfl
    | ok res =>
      simp only
      split <;> rfl
  · rintro ⟨h1, h2, h3, h4⟩
    simp only [initiateDownload, h1, h2, h3, h4, Bool.or_self, Bool.false_eq_true, if_false,
      and_self]

/-! ## The data: branch: header and payload -/

theorem exists_first_sep (s : JSString) (sep : Char) :
    sep ∉ s ∨ ∃ r p, s = r ++ sep :: p ∧ sep ∉ r := by
  induction s with
  | nil => exact Or.inl (List.not_mem_nil _)
  | cons c t ih =>
    by_cases hc : c = sep
    · exact Or.inr ⟨[], t, by simp [hc], List.not_mem_nil _⟩
    · rcases ih with h | ⟨r, p, h, hr⟩
      · left
        intro hm
        rcases List.mem_cons.mp hm with e | e
        · exact hc e.symm
        · exact h e
      · right
        refine ⟨c :: r, p, by simp [h], ?_⟩
        intro hm
        rcases List.mem_cons.mp hm with e | e
        · exact hc e.symm
        · exact hr e

theorem header_colon_split (r : JSString) :
    (split ("data:".toList ++ r) ':')[1]? = some (r.takeWhile (fun c => c != ':')) := by
  have h : "data:".toList ++ r = "data".toList ++ ':' :: r := rfl
  rw [h, split_append_sep _ _ _ (by decide)]
  simp only [List.getElem?_cons_succ]
  rw [← List.head?_eq_getElem?]
  exact split_head r ':'

/-- The locals of the handler for a URL `data:` + `r` + `,` + `p` whose header
part `r` has no comma. -/
theorem dataUrlFields_of_form (r p : JSString) (hr : ',' ∉ r) :
    dataUrlFields ("data:".toList ++ r ++ ',' :: p) = .ok ⟨"data:".toList ++ r,
      indexOf ("data:".toList ++ r) ";base64".toList != -1,
      orElse (some ((r.takeWhile (fun c => c != ':')).takeWhile (fun c => c != ';')))
        "application/octet-stream".toList,
      p.takeWhile (fun c => c != ',')⟩ := by
  have hh : ',' ∉ "data:".toList ++ r := by
    intro hm
    rcases List.mem_append.mp hm with e | e
    · exact absurd e (by decide)
    · exact hr e
  have hp : (split p ',')[0]? = some (p.takeWhile (fun c => c != ',')) := by
    rw [← List.head?_eq_getElem?]
    exact split_head p ','
  simp only [dataUrlFields, split_append_sep _ p ',' hh, List.headD_cons, header_colon_split,
    split_head, List.getElem?_cons_succ, hp, orElse_some_nil]

/-- The locals of the handler for a URL `data:` + `r` without any comma. -/
theorem dataUrlFields_no_comma (r : JSString) (hr : ',' ∉ r) :
    dataUrlFields ("data:".toList ++ r) = .ok ⟨"data:".toList ++ r,
      indexOf ("data:".toList ++ r) ";base64".toList != -1,
      orElse (some ((r.takeWhile (fun c => c != ':')).takeWhile (fun c => c != ';')))
        "application/octet-stream".toList,
      []⟩ := by
  have hh : ',' ∉ "data:".toList ++ r := by
    intro hm
    rcases List.mem_append.mp hm with e | e
    · exact absurd e (by decide)
    · exact hr e
  simp only [dataUrlFields, split_of_not_mem _ ',' hh, List.headD_cons, header_colon_split,
    split_head]
  rfl

theorem dataUrlFields_ok (url : JSString) (h : startsWith url "data:".toList = true) :
    ∃ f, dataUrlFields url = .ok f := by
  obtain ⟨rest, rfl⟩ := (startsWith_iff _ _).mp h
  rcases exists_first_sep rest ',' with hn | ⟨r, p, hrp, hr⟩
  · exact ⟨_, dataUrlFields_no_comma rest hn⟩
  · subst hrp
    rw [← List.append_assoc]
    exact ⟨_, dataUrlFields_of_form r p hr⟩

/-- C3 (counterexample): the handler cuts the payload of `data:text/plain,a,b`
at the second comma; it treats `data:text/plain;base64url=1,hi` as base64
although the last `;`-separated token of the header is not `base64`; and it
gives `data:text/plain;charset=utf-8,hi` the type `text/plain`, not the media
type `text/plain;charset=utf-8`. -/
theorem dataUrl_parsing_differs_from_grammar :
    (dataUrlFields "data:text/plain,a,b".toList =
        .ok ⟨"data:text/plain".toList, false, "text/plain".toList, "a".toList⟩ ∧
      refPayload "data:text/plain,a,b".toList = "a,b".toList) ∧
    (dataUrlFields "data:text/plain;base64url=1,hi".toList =
        .ok ⟨"data:text/plain;base64url=1".toList, true, "text/plain".toList, "hi".toList⟩ ∧
      refIsBase64 "data:text/plain;base64url=1,hi".toList = false) ∧
    (dataUrlFields "data:text/plain;charset=utf-8,hi".toList =
        .ok ⟨"data:text/plain;charset=utf-8".toList, false, "text/plain".toList, "hi".toList⟩ ∧
      refBlobType "data:text/plain;charset=utf-8,hi".toList =
        "text/plain;charset=utf-8".toList) := by
  decide

/-- C3 (amended): for every URL `data:` + `r` + `,` + `p` whose header part `r`
has no comma, the handler (1) takes as payload the entire text `p` after the
first comma when `p` contains no further comma, (2) treats the payload as
base64 exactly when the header contains the text `;base64`, and (3) gives the
blob the type made of the characters of `r` before its first `:` or `;`, or
`application/octet-stream` when there are none. -/
theorem dataUrl_parsing (r p : JSString) (hr : ',' ∉ r) :
    ∃ f, dataUrlFields ("data:".toList ++ r ++ ',' :: p) = .ok f ∧
      (',' ∉ p → f.dataPart = p) ∧
      (f.isBase64 = true ↔ ";base64".toList <:+: "data:".toList ++ r) ∧
      f.mime = orElse (some ((r.takeWhile (fun c => c != ':')).takeWhile (fun c => c != ';')))
        "application/octet-stream".toList ∧
      ∀ blob, dataUrlBlob ("data:".toList ++ r ++ ',' :: p) = .ok blob → blob.type = f.mime := by
  refine ⟨_, dataUrlFields_of_form r p hr, ?_, ?_, rfl, ?_⟩
  · intro hp
    apply List.takeWhile_eq_self_iff.mpr
    intro c hc
    have : c ≠ ',' := fun e => hp (e ▸ hc)
    simpa using this
  · exact indexOf_ne_iff _ _
  · intro blob hb
    simp only [dataUrlBlob, dataUrlFields_of_form r p hr] at hb
    split at hb
    · exact absurd hb (by simp)
    · simp only [Except.ok.injEq] at hb
      rw [← hb]

/-- C3 (witness): the URL `data:image/png;base64,AAAA`. -/
theorem dataUrl_parsing_witness :
    ∃ f, dataUrlFields ("data:".toList ++ "image/png;base64".toList ++ ',' :: "AAAA".toList) =
        .ok f ∧
      (',' ∉ "AAAA".toList → f.dataPart = "AAAA".toList) ∧
      (f.isBase64 = true ↔ ";base64".toList <:+: "data:".toList ++ "image/png;base64".toList) ∧
      f.mime = orElse (some (("image/png;base64".toList.takeWhile (fun c => c != ':')).takeWhile
        (fun c => c != ';'))) "application/octet-stream".toList ∧
      ∀ blob, dataUrlBlob ("data:".toList ++ "image/png;base64".toList ++ ',' :: "AAAA".toList) =
        .ok blob → blob.type = f.mime :=
  dataUrl_parsing "image/png;base64".toList "AAAA".toList (by decide)

/-! ## suggestFilename -/

/-- C5 (counterexample): for the relative reference `#top` the suggested name
is the last path segment of the page location: `a.png` on the page
`http://host/a.png` and `b.png` on the page `http://host/b.png`. -/
theorem suggestFilename_depends_on_location :
    suggestFilename httpURLPathname "http://host/a.png".toList (some "#top".toList) =
        "a.png".toList ∧
      suggestFilename httpURLPathname "http://host/b.png".toList (some "#top".toList) =
        "b.png".toList ∧
      suggestFilename httpURLPathname "http://host/a.png".toList (some "#top".toList) ≠
        suggestFilename httpURLPathname "http://host/b.png".toList (some "#top".toList) := by
  decide

/-- C5 (amended): for any two page locations `L1` and `L2`, `suggestFilename`
gives the same name under both for every URL that is absent or empty, that
starts with `data:` or `blob:`, or that `new URL` resolves alike against both
locations (to the same path, or failing in both), as it does every absolute
URL. -/
theorem suggestFilename_location_independent
    (newURL : JSString → JSString → Except JSError JSString) (L1 L2 : JSString)
    (url : MaybeString)
    (h : truthy url = false ∨
      (∃ u, url = some u ∧
        (startsWith u "data:".toList = true ∨ startsWith u "blob:".toList = true)) ∨
      (∃ u, url = some u ∧ newURL u L1 = newURL u L2)) :
    suggestFilename newURL L1 url = suggestFilename newURL L2 url := by
  cases url with
  | none => rfl
  | some u =>
    cases u with
    | nil => rfl
    | cons c t =>
      rcases h with h | ⟨v, hv, h⟩ | ⟨v, hv, h⟩
      · exact absurd h (by simp [truthy])
      · cases hv
        rcases h with h | h
        · simp only [suggestFilename, List.isEmpty_cons, Bool.false_eq_true, if_false, h, if_true]
        · by_cases hd : startsWith (c :: t) "data:".toList = true
          · simp only [suggestFilename, List.isEmpty_cons, Bool.false_eq_true, if_false, hd,
              if_true]
          · simp only [suggestFilename, List.isEmpty_cons, Bool.false_eq_true, if_false, hd, h,
              if_true]
      · cases hv
        simp only [suggestFilename, h]

/-- C5 (witness): the absolute URL `https://example.com/media/clip.mp4?x=1`
seen from two different pages. -/
theorem suggestFilename_location_independent_witness :
    suggestFilename httpURLPathname "http://host/a.png".toList
        (some "https://example.com/media/clip.mp4?x=1".toList) =
      suggestFilename httpURLPathname "https://other.org/dir/".toList
        (some "https://example.com/media/clip.mp4?x=1".toList) :=
  suggestFilename_location_independent httpURLPathname "http://host/a.png".toList
    "https://other.org/dir/".toList (some "https://example.com/media/clip.mp4?x=1".toList)
    (Or.inr (Or.inr ⟨_, rfl, by decide⟩))

/-! ## The extractBlob handler -/

theorem backgroundListener_downloadBlob (env : Browser) (m : Message)
    (ha : m.action = Action.downloadBlob) :
    ∃ r : Response, backgroundListener env (some m) = .ok (some r) := by
  have hne : ¬ (Action.downloadBlob = Action.downloadUrl) := by decide
  cases hc : env.createObjectURL m.blob with
  | error err =>
    exact ⟨⟨false, none, some (errString env.errorText err)⟩,
      by simp only [backgroundListener, ha, if_true, if_neg hne, hc]⟩
  | ok extUrl =>
    cases hd : env.download ⟨some extUrl, m.filename, m.saveAs.getD true⟩ with
    | error err =>
      exact ⟨⟨false, none, some (errString env.errorText err)⟩,
        by simp only [backgroundListener, ha, if_true, if_neg hne, hc, hd]⟩
    | ok id =>
      exact ⟨⟨true, some id, none⟩,
        by simp only [backgroundListener, ha, if_true, if_neg hne, hc, hd]⟩

theorem forward_resolves (env : Browser) (m : Message) (blob : Blob) :
    ∃ r : Response, forward env m blob = .ok (some r) ∧ Forwarded env m blob r := by
  cases hf : env.deliveryFailure (forwardMessage m blob) with
  | some err =>
    refine ⟨failure env err, ?_, ?_, ?_⟩
    · simp only [forward, runtimeSendMessage, hf, failure]
    · intro e he
      rw [hf] at he
      cases he
      rfl
    · intro he
      rw [hf] at he
      cases he
  | none =>
    obtain ⟨r, hr⟩ := backgroundListener_downloadBlob env (forwardMessage m blob) rfl
    refine ⟨r, ?_, ?_, ?_⟩
    · simp only [forward, runtimeSendMessage, hf, hr]
    · intro e he
      rw [hf] at he
      cases he
    · intro _
      exact hr

theorem dataUrlBlob_of_fields (u : JSString) (f : DataUrlFields) (hf : dataUrlFields u = .ok f) :
    dataUrlBlob u =
      match dataUrlBytes f with
      | .error e => .error e
      | .ok byteArray => .ok ⟨byteArray, f.mime⟩ := by
  simp only [dataUrlBlob, hf]

theorem dataUrlBytes_error (f : DataUrlFields) (err : JSError)
    (h : (f.isBase64 = true ∧ atob f.dataPart = .error err) ∨
      (f.isBase64 = false ∧ decodeURIComponent f.dataPart = .error err)) :
    dataUrlBytes f = .error err := by
  rcases h with ⟨hb, he⟩ | ⟨hb, he⟩
  · simp only [dataUrlBytes, hb, if_true, he]
  · simp only [dataUrlBytes, hb, Bool.false_eq_true, if_false, he]

/-- The answer of the `extractBlob` branch in terms of the locals of the
handler: `{success: false, error: 'no url'}` without a URL; for a `data:` URL
the failure object when decoding the local `dataPart` throws and otherwise the
answer to forwarding the blob; for another URL the failure object when `fetch`
fails, answers non-ok or its body cannot be read, and otherwise the answer to
forwarding the body. -/
theorem extractBlob_by_locals (env : Browser) (m : Message)
    (ha : m.action = Action.extractBlob) :
    ∃ r : Response, contentListener env (some m) = .ok (.promise (.ok (some r))) ∧
      (truthy m.url = false → r = ⟨false, none, some "no url".toList⟩) ∧
      (∀ u, m.url = some u → u ≠ [] → startsWith u "data:".toList = true →
        ∃ f, dataUrlFields u = .ok f ∧
          (∀ err, ((f.isBase64 = true ∧ atob f.dataPart = .error err) ∨
              (f.isBase64 = false ∧ decodeURIComponent f.dataPart = .error err)) →
            r = failure env err) ∧
          (∀ blob, dataUrlBlob u = .ok blob → Forwarded env m blob r)) ∧
      (∀ u, m.url = some u → u ≠ [] → startsWith u "data:".toList = false →
        (∀ err, env.fetch u = .error err → r = failure env err) ∧
        (∀ res, env.fetch u = .ok res →
          (res.ok = false → r = failure env
            (.error ("fetch failed: ".toList ++ (Nat.repr res.status).toList))) ∧
          (res.ok = true →
            (∀ err, res.blob = .error err → r = failure env err) ∧
            (∀ blob, res.blob = .ok blob → Forwarded env m blob r)))) := by
  have hne : ¬ (Action.extractBlob = Action.collectMedia) := by decide
  cases hu : m.url with
  | none =>
    refine ⟨⟨false, none, some "no url".toList⟩, ?_, fun _ => rfl, ?_, ?_⟩
    · simp only [contentListener, ha, if_neg hne, if_true, extractBlob, hu]
    · intro u h
      cases h
    · intro u h
      cases h
  | some u =>
    cases u with
    | nil =>
      refine ⟨⟨false, none, some "no url".toList⟩, ?_, fun _ => rfl, ?_, ?_⟩
      · simp only [contentListener, ha, if_neg hne, if_true, extractBlob, hu, List.isEmpty_nil]
      · intro u h hn
        cases h
        exact absurd rfl hn
      · intro u h hn
        cases h
        exact absurd rfl hn
    | cons c t =>
      have htr : truthy (some (c :: t)) ≠ false := by simp [truthy]
      by_cases hd : startsWith (c :: t) "data:".toList = true
      · obtain ⟨f, hf⟩ := dataUrlFields_ok (c :: t) hd
        have hblob := dataUrlBlob_of_fields (c :: t) f hf
        cases hb : dataUrlBytes f with
        | error e =>
          simp only [hb] at hblob
          refine ⟨failure env e, ?_, fun h => absurd h htr, ?_, ?_⟩
          · simp only [contentListener, ha, if_neg hne, if_true, extractBlob, hu,
              List.isEmpty_cons, Bool.false_eq_true, if_false, hd, hblob, failure]
          · intro v hv _ _
            cases hv
            refine ⟨f, hf, ?_, ?_⟩
            · intro err herr
              have := dataUrlBytes_error f err herr
              rw [hb] at this
              cases this
              rfl
            · intro blob hbl
              rw [hblob] at hbl
              cases hbl
          · intro v hv _ hnd
            cases hv
            rw [hd] at hnd
            cases hnd
        | ok bytes =>
          simp only [hb] at hblob
          obtain ⟨r, hr, hfw⟩ := forward_resolves env m ⟨bytes, f.mime⟩
          refine ⟨r, ?_, fun h => absurd h htr, ?_, ?_⟩
          · simp only [contentListener, ha, if_neg hne, if_true, extractBlob, hu,
              List.isEmpty_cons, Bool.false_eq_true, if_false, hd, hblob, hr]
          · intro v hv _ _
            cases hv
            refine ⟨f, hf, ?_, ?_⟩
            · intro err herr
              have := dataUrlBytes_error f err herr
              rw [hb] at this
              cases this
            · intro blob hbl
              rw [hblob] at hbl
              cases hbl
              exact hfw
          · intro v hv _ hnd
            cases hv
            rw [hd] at hnd
            cases hnd
      · have hdf : startsWith (c :: t) "data:".toList = false := by
          cases h : startsWith (c :: t) "data:".toList with
          | true => exact absurd h hd
          | false => rfl
        have hdata : ∀ (r : Response) (v : JSString), some (c :: t) = some v → v ≠ [] →
            startsWith v "data:".toList = true →
            ∃ f, dataUrlFields v = .ok f ∧
              (∀ err, ((f.isBase64 = true ∧ atob f.dataPart = .error err) ∨
                  (f.isBase64 = false ∧ decodeURIComponent f.dataPart = .error err)) →
                r = failure env err) ∧
              (∀ blob, dataUrlBlob v = .ok blob → Forwarded env m blob r) := by
          intro r v hv _ hvd
          cases hv
          exact absurd hvd hd
        cases hfetch : env.fetch (c :: t) with
        | error e =>
          refine ⟨failure env e, ?_, fun h => absurd h htr, hdata _, ?_⟩
          · simp only [contentListener, ha, if_neg hne, if_true, extractBlob, hu,
              List.isEmpty_cons, Bool.false_eq_true, if_false, hdf, hfetch, failure]
          · intro v hv _ _
            cases hv
            constructor
            · intro err herr
              rw [hfetch] at herr
              cases herr
              rfl
            · intro res hres
              rw [hfetch] at hres
              cases hres
        | ok res =>
          cases hok : res.ok with
          | false =>
            refine ⟨failure env (.error ("fetch failed: ".toList ++ (Nat.repr res.status).toList)),
              ?_, fun h => absurd h htr, hdata _, ?_⟩
            · simp only [contentListener, ha, if_neg hne, if_true, extractBlob, hu,
                List.isEmpty_cons, Bool.false_eq_true, if_false, hdf, hfetch, hok, Bool.not_false,
                failure]
            · intro v hv _ _
              cases hv
              constructor
              · intro err herr
                rw [hfetch] at herr
                cases herr
              · intro res2 hres
                rw [hfetch] at hres
                cases hres
                constructor
                · intro _
                  rfl
                · intro h
                  rw [hok] at h
                  cases h
          | true =>
            cases hbl : res.blob with
            | error e =>
              refine ⟨failure env e, ?_, fun h => absurd h htr, hdata _, ?_⟩
              · simp only [contentListener, ha, if_neg hne, if_true, extractBlob, hu,
                  List.isEmpty_cons, Bool.false_eq_true, if_false, hdf, hfetch, hok, Bool.not_true,
                  hbl, failure]
              · intro v hv _ _
                cases hv
                constructor
                · intro err herr
                  rw [hfetch] at herr
                  cases herr
                · intro res2 hres
                  rw [hfetch] at hres
                  cases hres
                  constructor
                  · intro h
                    rw [hok] at h
                    cases h
                  · intro _
                    constructor
                    · intro err herr
                      rw [hbl] at herr
                      cases herr
                      rfl
                    · intro blob hb2
                      rw [hbl] at hb2
                      cases hb2
            | ok blob =>
              obtain ⟨r, hr, hfw⟩ := forward_resolves env m blob
              refine ⟨r, ?_, fun h => absurd h htr, hdata _, ?_⟩
              · simp only [contentListener, ha, if_neg hne, if_true, extractBlob, hu,
                  List.isEmpty_cons, Bool.false_eq_true, if_false, hdf, hfetch, hok, Bool.not_true,
                  hbl, hr]
              · intro v hv _ _
                cases hv
                constructor
                · intro err herr
                  rw [hfetch] at herr
                  cases herr
                · intro res2 hres
                  rw [hfetch] at hres
                  cases hres
                  constructor
                  · intro h
                    rw [hok] at h
                    cases h
                  · intro _
                    constructor
                    · intro err herr
                      rw [hbl] at herr
                      cases herr
                    · intro blob2 hb2
                      rw [hbl] at hb2
                      cases hb2
                      exact hfw

/-! ## Base64 -/

theorem base64Char_props (v : Nat) (hv : v < 64) :
    base64Value (base64Char v) = some v ∧ base64Char v ≠ '=' ∧ base64Char v ≠ ',' ∧
      isAsciiWhitespace (base64Char v) = false := by
  interval_cases v <;> decide

theorem base64Encode_eq (b : List Nat) :
    base64Encode b = (sextets b).map base64Char ++ padding b := by
  induction b using base64Encode.induct with
  | case1 a b c rest ih => simp [base64Encode, sextets, padding, ih]
  | case2 a b => rfl
  | case3 a => rfl
  | case4 => rfl

theorem sextets_lt (b : List Nat) (hb : ∀ x ∈ b, x < 256) : ∀ v ∈ sextets b, v < 64 := by
  induction b using base64Encode.induct with
  | case1 a b c rest ih =>
    have ha := hb a (by simp)
    have hb2 := hb b (by simp)
    have hc := hb c (by simp)
    intro v hv
    simp only [sextets, List.mem_cons] at hv
    rcases hv with h | h | h | h | h
    · omega
    · omega
    · omega
    · omega
    · exact ih (fun x hx => hb x (by simp [hx])) v h
  | case2 a b =>
    have ha := hb a (by simp)
    have hb2 := hb b (by simp)
    intro v hv
    simp only [sextets, List.mem_cons, List.mem_singleton, List.not_mem_nil, or_false] at hv
    rcases hv with h | h | h <;> omega
  | case3 a =>
    have ha := hb a (by simp)
    intro v hv
    simp only [sextets, List.mem_cons, List.mem_singleton, List.not_mem_nil, or_false] at hv
    rcases hv with h | h <;> omega
  | case4 =>
    intro v hv
    simp [sextets] at hv

theorem sextetsToBytes_sextets (b : List Nat) (hb : ∀ x ∈ b, x < 256) :
    sextetsToBytes (sextets b) = b := by
  induction b using base64Encode.induct with
  | case1 a b c rest ih =>
    have ha := hb a (by simp)
    have hb2 := hb b (by simp)
    have hc := hb c (by simp)
    simp only [sextets, sextetsToBytes, ih (fun x hx => hb x (by simp [hx]))]
    congr 1
    · omega
    · congr 1
      · omega
      · congr 1
        omega
  | case2 a b =>
    have ha := hb a (by simp)
    have hb2 := hb b (by simp)
    simp only [sextets, sextetsToBytes]
    congr 1
    · omega
    · congr 1
      omega
  | case3 a =>
    have ha := hb a (by simp)
    simp only [sextets, sextetsToBytes]
    congr 1
    omega
  | case4 => rfl

theorem sextetsOf_map (l : List Nat) (hl : ∀ v ∈ l, v < 64) :
    sextetsOf (l.map base64Char) = some l := by
  induction l with
  | nil => rfl
  | cons v t ih =>
    have hv := (base64Char_props v (hl v (by simp))).1
    simp only [List.map_cons, sextetsOf, hv, ih (fun x hx => hl x (by simp [hx]))]

theorem padding_cases (b : List Nat) :
    (padding b = [] ∧ (sextets b).length % 4 = 0) ∨
    (padding b = ['='] ∧ (sextets b).length % 4 = 3) ∨
    (padding b = ['=', '='] ∧ (sextets b).length % 4 = 2) := by
  induction b using base64Encode.induct with
  | case1 a b c rest ih =>
    simp only [padding, sextets, List.length_cons]
    rcases ih with h | h | h
    · exact Or.inl ⟨h.1, by omega⟩
    · exact Or.inr (Or.inl ⟨h.1, by omega⟩)
    · exact Or.inr (Or.inr ⟨h.1, by omega⟩)
  | case2 a b => exact Or.inr (Or.inl ⟨rfl, rfl⟩)
  | case3 a => exact Or.inr (Or.inr ⟨rfl, rfl⟩)
  | case4 => exact Or.inl ⟨rfl, rfl⟩

theorem endsWith_eq_false_of_last (body : JSString) (p : JSString) (c : Char)
    (hbody : ∀ x ∈ body, x ≠ c) : endsWith body (p ++ [c]) = false := by
  cases h : endsWith body (p ++ [c]) with
  | false => rfl
  | true =>
    exfalso
    have hs : (p ++ [c]) <:+ body := List.isSuffixOf_iff_suffix.mp h
    exact hbody c (hs.subset (by simp)) rfl

theorem stripPadding_encoded (body pad : JSString) (hbody : ∀ x ∈ body, x ≠ '=')
    (hpad : (pad = [] ∧ body.length % 4 = 0) ∨ (pad = ['='] ∧ body.length % 4 = 3) ∨
      (pad = ['=', '='] ∧ body.length % 4 = 2)) :
    stripPadding (body ++ pad) = body := by
  rcases hpad with ⟨hp, hl⟩ | ⟨hp, hl⟩ | ⟨hp, hl⟩
  · subst hp
    have h1 : endsWith body "==".toList = false :=
      endsWith_eq_false_of_last body ['='] '=' hbody
    have h2 : endsWith body "=".toList = false :=
      endsWith_eq_false_of_last body [] '=' hbody
    simp only [stripPadding, List.append_nil, hl, beq_self_eq_true, if_true, h1, h2,
      Bool.false_eq_true, if_false]
  · subst hp
    have hlen : (body ++ ['=']).length % 4 = 0 := by
      simp only [List.length_append, List.length_singleton]
      omega
    have h1 : endsWith (body ++ ['=']) "==".toList = false := by
      cases h : endsWith (body ++ ['=']) "==".toList with
      | false => rfl
      | true =>
        exfalso
        have hs : ['=', '='] <:+ body ++ ['='] := List.isSuffixOf_iff_suffix.mp h
        obtain ⟨t, ht⟩ := hs
        have e : (t ++ ['=']) ++ ['='] = body ++ ['='] := by simpa using ht
        have e2 : t ++ ['='] = body := List.append_cancel_right e
        exact hbody '=' (by rw [← e2]; simp) rfl
    have h2 : endsWith (body ++ ['=']) "=".toList = true :=
      List.isSuffixOf_iff_suffix.mpr (List.suffix_append body ['='])
    simp only [stripPadding, hlen, beq_self_eq_true, if_true, h1, h2, Bool.false_eq_true,
      if_false, List.dropLast_concat]
  · subst hp
    have hlen : (body ++ ['=', '=']).length % 4 = 0 := by
      simp only [List.length_append, List.length_cons, List.length_nil]
      omega
    have h1 : endsWith (body ++ ['=', '=']) "==".toList = true :=
      List.isSuffixOf_iff_suffix.mpr (List.suffix_append body ['=', '='])
    have hd : (body ++ ['=', '=']).dropLast.dropLast = body := by
      have e : body ++ ['=', '='] = (body ++ ['=']) ++ ['='] := by simp
      rw [e, List.dropLast_concat, List.dropLast_concat]
    simp only [stripPadding, hlen, beq_self_eq_true, if_true, h1, hd]

theorem padding_chars (b : List Nat) : ∀ c ∈ padding b, c = '=' := by
  rcases padding_cases b with h | h | h <;> rw [h.1] <;> simp

/-- The `atob` of the base64 encoding of a byte sequence is the binary string
of these bytes. -/
theorem atob_base64Encode (b : List Nat) (hb : ∀ x ∈ b, x < 256) :
    atob (base64Encode b) = .ok (b.map Char.ofNat) := by
  have hlt := sextets_lt b hb
  have hbody : ∀ x ∈ (sextets b).map base64Char, x ≠ '=' := by
    intro x hx
    obtain ⟨v, hv, rfl⟩ := List.mem_map.mp hx
    exact (base64Char_props v (hlt v hv)).2.1
  have hws : (base64Encode b).filter (fun c => !isAsciiWhitespace c) = base64Encode b := by
    apply List.filter_eq_self.mpr
    intro c hc
    rw [base64Encode_eq] at hc
    rcases List.mem_append.mp hc with h | h
    · obtain ⟨v, hv, rfl⟩ := List.mem_map.mp h
      simp [(base64Char_props v (hlt v hv)).2.2.2]
    · rw [padding_chars b c h]
      decide
  have hcases := padding_cases b
  have hstrip : stripPadding (base64Encode b) = (sextets b).map base64Char := by
    rw [base64Encode_eq]
    apply stripPadding_encoded _ _ hbody
    simpa using hcases
  have hlen : ((sextets b).map base64Char).length % 4 ≠ 1 := by
    rw [List.length_map]
    rcases hcases with h | h | h <;> omega
  have hbeq : (((sextets b).map base64Char).length % 4 == 1) = false := by
    simpa using hlen
  simp only [atob, hws, hstrip, hbeq, Bool.false_eq_true, if_false, sextetsOf_map _ hlt,
    sextetsToBytes_sextets b hb]

theorem toNat_ofNat_byte (x : Nat) (hx : x < 256) : (Char.ofNat x).toNat = x := by
  interval_cases x <;> rfl

theorem toUint8Array_bytes (b : List Nat) (hb : ∀ x ∈ b, x < 256) :
    toUint8Array (b.map Char.ofNat) = b := by
  induction b with
  | nil => rfl
  | cons x t ih =>
    have hx := hb x (by simp)
    have ht := ih (fun y hy => hb y (by simp [hy]))
    have hlt : x < 65536 := by omega
    simp only [toUint8Array, codeUnits] at ht
    simp only [toUint8Array, codeUnits, List.map_cons, List.flatMap_cons,
      toNat_ofNat_byte x hx, hlt, if_true, List.singleton_append]
    rw [ht, Nat.mod_eq_of_lt hx]

/-- C1: for every byte sequence `b` and every media type `m` without `,` or
`;`, the byte array the handler builds for the URL `data:` + `m` +
`;base64,` + base64(`b`) has the length of `b` and equals `b` byte for byte. -/
theorem base64_dataUrl_round_trip (b : List Nat) (m : JSString) (hb : ∀ x ∈ b, x < 256)
    (hm : ',' ∉ m) (_hm : ';' ∉ m) :
    ∃ blob, dataUrlBlob ("data:".toList ++ m ++ ";base64,".toList ++ base64Encode b) = .ok blob ∧
      blob.bytes.length = b.length ∧ blob.bytes = b := by
  have hurl : "data:".toList ++ m ++ ";base64,".toList ++ base64Encode b =
      "data:".toList ++ (m ++ ";base64".toList) ++ ',' :: base64Encode b := by
    have e : ";base64,".toList = ";base64".toList ++ [','] := rfl
    rw [e]
    simp only [List.append_assoc, List.singleton_append]
  have hr : ',' ∉ m ++ ";base64".toList := by
    intro h
    rcases List.mem_append.mp h with h | h
    · exact hm h
    · exact absurd h (by decide)
  have hlt := sextets_lt b hb
  have hnc : ∀ c ∈ base64Encode b, c ≠ ',' := by
    intro c hc
    rw [base64Encode_eq] at hc
    rcases List.mem_append.mp hc with h | h
    · obtain ⟨v, hv, rfl⟩ := List.mem_map.mp h
      exact (base64Char_props v (hlt v hv)).2.2.1
    · rw [padding_chars b c h]
      decide
  have hpay : (base64Encode b).takeWhile (fun c => c != ',') = base64Encode b := by
    apply List.takeWhile_eq_self_iff.mpr
    intro c hc
    simpa using hnc c hc
  have hflag : (indexOf ("data:".toList ++ (m ++ ";base64".toList)) ";base64".toList != -1) =
      true := by
    rw [indexOf_ne_iff]
    exact ⟨"data:".toList ++ m, [], by simp⟩
  refine ⟨⟨b, orElse (some (((m ++ ";base64".toList).takeWhile (fun c => c != ':')).takeWhile
    (fun c => c != ';'))) "application/octet-stream".toList⟩, ?_, rfl, rfl⟩
  rw [hurl]
  simp only [dataUrlBlob, dataUrlFields_of_form _ _ hr, dataUrlBytes, hflag, hpay, if_true,
    atob_base64Encode b hb, toUint8Array_bytes b hb]

/-- C1 (witness): the bytes 104, 105, 255 with the media type `text/plain`. -/
theorem base64_dataUrl_round_trip_witness :
    ∃ blob, dataUrlBlob ("data:".toList ++ "text/plain".toList ++ ";base64,".toList ++
        base64Encode [104, 105, 255]) = .ok blob ∧
      blob.bytes.length = [104, 105, 255].length ∧ blob.bytes = [104, 105, 255] :=
  base64_dataUrl_round_trip [104, 105, 255] "text/plain".toList (by decide) (by decide)
    (by decide)

theorem hexChar_props (v : Nat) (hv : v < 16) :
    hexDigit (hexChar v) = some v ∧ hexChar v ≠ ',' := by
  interval_cases v <;> decide

theorem decodeFrom_pctEncode_ascii (b : List Nat) (hb : ∀ x ∈ b, x < 128) :
    decodeFrom 0 (pctEncode b) = .ok (b.map Char.ofNat) := by
  induction b with
  | nil => rfl
  | cons x t ih =>
    have hx := hb x (by simp)
    have h1 := (hexChar_props (x / 16) (by omega)).1
    have h2 := (hexChar_props (x % 16) (by omega)).1
    have hp : parseHexOctet (hexChar (x / 16)) (hexChar (x % 16)) = some x := by
      simp only [parseHexOctet, h1, h2]
      congr 1
      omega
    have hl : leadingOnes x = 0 := by
      simp only [leadingOnes, hx, if_true]
    have e : pctEncode (x :: t) = '%' :: hexChar (x / 16) :: hexChar (x % 16) :: pctEncode t := rfl
    have hne : ('%' != '%') = false := by decide
    rw [e, decodeFrom]
    simp only [hne, Bool.false_eq_true, if_false, hp, hl, if_true,
      ih (fun y hy => hb y (by simp [hy]))]
    rfl

/-- The percent branch is byte exact on ASCII: for bytes below 128 and a media
type without `,` or `;`, the byte array built for `data:` + `m` + `,` +
pct(`b`) equals `b`. -/
theorem pct_dataUrl_round_trip_ascii (b : List Nat) (m : JSString) (hb : ∀ x ∈ b, x < 128)
    (hm : ',' ∉ m) (hm2 : ';' ∉ m) :
    ∃ blob, dataUrlBlob ("data:".toList ++ m ++ ",".toList ++ pctEncode b) = .ok blob ∧
      blob.bytes = b := by
  have hurl : "data:".toList ++ m ++ ",".toList ++ pctEncode b =
      "data:".toList ++ m ++ ',' :: pctEncode b := by
    have e : ",".toList = [','] := rfl
    rw [e]
    simp only [List.append_assoc, List.singleton_append]
  have hnc : ∀ c ∈ pctEncode b, c ≠ ',' := by
    intro c hc
    simp only [pctEncode, List.mem_flatMap, List.mem_cons, List.mem_singleton,
      List.not_mem_nil, or_false] at hc
    obtain ⟨x, hx, h⟩ := hc
    have hx2 := hb x hx
    rcases h with h | h | h
    · rw [h]
      decide
    · rw [h]
      exact (hexChar_props (x / 16) (by omega)).2
    · rw [h]
      exact (hexChar_props (x % 16) (by omega)).2
  have hpay : (pctEncode b).takeWhile (fun c => c != ',') = pctEncode b := by
    apply List.takeWhile_eq_self_iff.mpr
    intro c hc
    simpa using hnc c hc
  have hflag : (indexOf ("data:".toList ++ m) ";base64".toList != -1) = false := by
    cases h : (indexOf ("data:".toList ++ m) ";base64".toList != -1) with
    | false => rfl
    | true =>
      exfalso
      have hi := (indexOf_ne_iff _ _).mp h
      have hmem : ';' ∈ "data:".toList ++ m := hi.subset (by decide)
      rcases List.mem_append.mp hmem with h1 | h1
      · exact absurd h1 (by decide)
      · exact hm2 h1
  have hbytes : toUint8Array (b.map Char.ofNat) = b :=
    toUint8Array_bytes b (fun x hx => by have := hb x hx; omega)
  refine ⟨⟨b, orElse (some ((m.takeWhile (fun c => c != ':')).takeWhile
    (fun c => c != ';'))) "application/octet-stream".toList⟩, ?_, rfl⟩
  rw [hurl]
  simp only [dataUrlBlob, dataUrlFields_of_form _ _ hm, dataUrlBytes, hflag, hpay,
    Bool.false_eq_true, if_false, decodeURIComponent, decodeFrom_pctEncode_ascii b hb, hbytes]

/-- C2 (failing input): for the byte 255 the URL `data:text/plain,%FF` makes
`decodeURIComponent` throw a `URIError`, so no blob is built; and for the bytes
195, 169 the URL `data:text/plain,%C3%A9` yields the single byte 233. -/
theorem pct_dataUrl_high_bytes_not_round_tripped :
    pctEncode [255] = "%FF".toList ∧
    dataUrlBlob ("data:".toList ++ "text/plain".toList ++ ",".toList ++ pctEncode [255]) =
      .error .uriError ∧
    pctEncode [195, 169] = "%C3%A9".toList ∧
    dataUrlBlob ("data:".toList ++ "text/plain".toList ++ ",".toList ++ pctEncode [195, 169]) =
      .ok ⟨[233], "text/plain".toList⟩ := by
  decide

/-! ## Percent-decoding and the answer per payload -/

theorem decodeFrom_skip (k : Nat) (c : Char) (rest : JSString) :
    decodeFrom (k + 1) (c :: rest) = decodeFrom k rest := by
  conv_lhs => rw [decodeFrom]

theorem decodeFrom_char (c : Char) (rest : JSString) (h : (c != '%') = true) :
    decodeFrom 0 (c :: rest) = (decodeFrom 0 rest).map (fun r => c :: r) := by
  match rest with
  | [] =>
    simp [decodeFrom, h]
  | [_] =>
    simp [decodeFrom, h]
  | _ :: _ :: _ =>
    conv_lhs => rw [decodeFrom]
    simp only [h, if_true]

theorem decodeFrom_pct_short (c : Char) (rest : JSString) (h : (c != '%') = false)
    (hlen : rest.length < 2) : decodeFrom 0 (c :: rest) = .error .uriError := by
  match rest, hlen with
  | [], _ =>
    simp [decodeFrom, h]
  | [_], _ =>
    simp [decodeFrom, h]
  | _ :: _ :: _, hlen =>
    simp only [List.length_cons] at hlen
    omega

theorem decodeFrom_pct (c h1 h2 : Char) (rest2 : JSString) (h : (c != '%') = false) :
    decodeFrom 0 (c :: h1 :: h2 :: rest2) =
      match parseHexOctet h1 h2 with
      | none => .error .uriError
      | some b =>
        if leadingOnes b = 0 then (decodeFrom 0 rest2).map (fun r => Char.ofNat b :: r)
        else if leadingOnes b = 1 ∨ leadingOnes b > 4 then .error .uriError
        else
          match readContinuation (leadingOnes b - 1) rest2 with
          | none => .error .uriError
          | some conts =>
            match utf8CodePoint (leadingOnes b) b conts with
            | none => .error .uriError
            | some v =>
              (decodeFrom (3 * (leadingOnes b - 1)) rest2).map (fun r => Char.ofNat v :: r) := by
  conv_lhs => rw [decodeFrom]
  simp only [h, Bool.false_eq_true, if_false]

theorem pctValid_char (c : Char) (rest : JSString) (h : (c == '%') = false) :
    pctValid (c :: rest) = pctValid rest := by
  match rest with
  | [] =>
    simp [pctValid, h]
  | [_] =>
    simp [pctValid, h]
  | _ :: _ :: _ =>
    conv_lhs => rw [pctValid]
    simp only [h, Bool.false_eq_true, if_false]

theorem pctValid_pct (c h1 h2 : Char) (rest2 : JSString) (h : (c == '%') = true) :
    pctValid (c :: h1 :: h2 :: rest2) = ((parseHexOctet h1 h2).isSome && pctValid rest2) := by
  conv_lhs => rw [pctValid]
  simp only [h, if_true]

theorem pctAscii_char (c : Char) (rest : JSString) (h : (c == '%') = false) :
    pctAscii (c :: rest) = pctAscii rest := by
  match rest with
  | [] =>
    simp [pctAscii, h]
  | [_] =>
    simp [pctAscii, h]
  | _ :: _ :: _ =>
    conv_lhs => rw [pctAscii]
    simp only [h, Bool.false_eq_true, if_false]

theorem pctAscii_pct (c h1 h2 : Char) (rest2 : JSString) (h : (c == '%') = true) :
    pctAscii (c :: h1 :: h2 :: rest2) =
      match parseHexOctet h1 h2 with
      | some b => decide (b < 128) && pctAscii rest2
      | none => false := by
  conv_lhs => rw [pctAscii]
  simp only [h, if_true]

theorem pctAscii_pct_short (c : Char) (rest : JSString) (h : (c == '%') = true)
    (hlen : rest.length < 2) : pctAscii (c :: rest) = false := by
  match rest, hlen with
  | [], _ =>
    simp [pctAscii, h]
  | [_], _ =>
    simp [pctAscii, h]
  | _ :: _ :: _, hlen =>
    simp only [List.length_cons] at hlen
    omega

/-- Decoding fails on a text that is not valid percent-encoding, also when
the index has already moved over `j` validated escapes. -/
theorem decodeFrom_of_not_pctValid (n : Nat) :
    ∀ (s : JSString) (j : Nat) (conts : List Nat), s.length ≤ n →
      readContinuation j s = some conts → pctValid s = false →
      decodeFrom (3 * j) s = .error .uriError := by
  induction n with
  | zero =>
    intro s j conts hlen _ hv
    cases s with
    | nil => exact absurd hv (by decide)
    | cons c t => simp at hlen
  | succ n ih =>
    intro s j conts hlen hr hv
    cases j with
    | succ k =>
      match s, hr, hv, hlen with
      | [], hr, _, _ => simp [readContinuation] at hr
      | [_], hr, _, _ => simp [readContinuation] at hr
      | [_, _], hr, _, _ => simp [readContinuation] at hr
      | c :: h1 :: h2 :: rest, hr, hv, hlen =>
        simp only [readContinuation] at hr
        by_cases hc : (c == '%') = true
        · simp only [hc, if_true] at hr
          cases hp : parseHexOctet h1 h2 with
          | none => simp [hp] at hr
          | some b =>
            cases hk : readContinuation k rest with
            | none => simp [hp, hk] at hr
            | some bs =>
              have hv2 : pctValid rest = false := by
                rw [pctValid_pct c h1 h2 rest hc, hp] at hv
                simpa using hv
              have e : 3 * (k + 1) = 3 * k + 1 + 1 + 1 := by omega
              rw [e, decodeFrom_skip, decodeFrom_skip, decodeFrom_skip]
              apply ih rest k bs _ hk hv2
              simp only [List.length_cons] at hlen
              omega
        · simp [hc] at hr
    | zero =>
      cases s with
      | nil => exact absurd hv (by decide)
      | cons c rest =>
        have hlen2 : rest.length ≤ n := by
          simp only [List.length_cons] at hlen
          omega
        by_cases hc : (c == '%') = true
        · have hne : (c != '%') = false := by simp [bne, hc]
          match rest, hv, hlen2 with
          | [], _, _ => exact decodeFrom_pct_short c [] hne (by decide)
          | [_], _, _ => exact decodeFrom_pct_short c _ hne (by simp)
          | h1 :: h2 :: rest2, hv, hlen2 =>
            have hlen3 : rest2.length ≤ n := by
              simp only [List.length_cons] at hlen2
              omega
            rw [decodeFrom_pct c h1 h2 rest2 hne]
            cases hp : parseHexOctet h1 h2 with
            | none => rfl
            | some b =>
              have hv2 : pctValid rest2 = false := by
                rw [pctValid_pct c h1 h2 rest2 hc, hp] at hv
                simpa using hv
              simp only
              by_cases h0 : leadingOnes b = 0
              · simp only [h0, if_true]
                have := ih rest2 0 [] hlen3 rfl hv2
                simp only [Nat.mul_zero] at this
                rw [this]
                rfl
              · simp only [h0, if_false]
                by_cases h1 : leadingOnes b = 1 ∨ leadingOnes b > 4
                · simp only [h1, if_true]
                · simp only [h1, if_false]
                  cases hk : readContinuation (leadingOnes b - 1) rest2 with
                  | none => rfl
                  | some cs =>
                    simp only
                    cases hu : utf8CodePoint (leadingOnes b) b cs with
                    | none => rfl
                    | some v =>
                      simp only
                      rw [ih rest2 (leadingOnes b - 1) cs hlen3 hk hv2]
                      rfl
        · have hcf : (c == '%') = false := by
            cases h : (c == '%') with
            | true => exact absurd h hc
            | false => rfl
          have hne : (c != '%') = true := by simp [bne, hcf]
          have hv2 : pctValid rest = false := by
            rw [pctValid_char c rest hcf] at hv
            exact hv
          rw [decodeFrom_char c rest hne]
          have := ih rest 0 [] hlen2 rfl hv2
          simp only [Nat.mul_zero] at this
          rw [this]
          rfl

theorem decodeURIComponent_of_not_pctValid (p : JSString) (h : pctValid p = false) :
    decodeURIComponent p = .error .uriError := by
  have := decodeFrom_of_not_pctValid p.length p 0 [] (le_refl _) rfl h
  simpa [decodeURIComponent] using this

/-- Decoding succeeds on valid percent-encoding whose escapes are all ASCII. -/
theorem decodeFrom_of_pctAscii (n : Nat) :
    ∀ s : JSString, s.length ≤ n → pctAscii s = true → ∃ d, decodeFrom 0 s = .ok d := by
  induction n with
  | zero =>
    intro s hlen _
    cases s with
    | nil => exact ⟨[], rfl⟩
    | cons c t => simp at hlen
  | succ n ih =>
    intro s hlen hv
    cases s with
    | nil => exact ⟨[], rfl⟩
    | cons c rest =>
      have hlen2 : rest.length ≤ n := by
        simp only [List.length_cons] at hlen
        omega
      by_cases hc : (c == '%') = true
      · have hne : (c != '%') = false := by simp [bne, hc]
        match rest, hv, hlen2 with
        | [], hv, _ =>
          rw [pctAscii_pct_short c [] hc (by decide)] at hv
          cases hv
        | [_], hv, _ =>
          rw [pctAscii_pct_short c _ hc (by simp)] at hv
          cases hv
        | h1 :: h2 :: rest2, hv, hlen2 =>
          have hlen3 : rest2.length ≤ n := by
            simp only [List.length_cons] at hlen2
            omega
          rw [pctAscii_pct c h1 h2 rest2 hc] at hv
          cases hp : parseHexOctet h1 h2 with
          | none =>
            rw [hp] at hv
            cases hv
          | some b =>
            rw [hp] at hv
            simp only [Bool.and_eq_true, decide_eq_true_eq] at hv
            obtain ⟨d, hd⟩ := ih rest2 hlen3 hv.2
            have h0 : leadingOnes b = 0 := by
              simp only [leadingOnes, hv.1, if_true]
            refine ⟨Char.ofNat b :: d, ?_⟩
            rw [decodeFrom_pct c h1 h2 rest2 hne]
            simp only [hp, h0, if_true, hd]
            rfl
      · have hcf : (c == '%') = false := by
          cases h : (c == '%') with
          | true => exact absurd h hc
          | false => rfl
        have hne : (c != '%') = true := by simp [bne, hcf]
        rw [pctAscii_char c rest hcf] at hv
        obtain ⟨d, hd⟩ := ih rest hlen2 hv
        refine ⟨c :: d, ?_⟩
        rw [decodeFrom_char c rest hne, hd]
        rfl

theorem decodeURIComponent_of_pctAscii (p : JSString) (h : pctAscii p = true) :
    ∃ d, decodeURIComponent p = .ok d :=
  decodeFrom_of_pctAscii p.length p (le_refl _) h

/-- C7 (counterexample): for `data:text/plain;base64,aGk=,@@@` the payload after
the first comma is not valid base64, yet the handler answers with the
response of the background; for `data:text/plain;base64url=1,hi%20there` the
header does not end in the token `base64` and the payload is valid
percent-encoding, yet the handler answers `{success: false, error}`; and so it
does for `data:text/plain,%FF`, whose payload is valid percent-encoding. -/
theorem extractBlob_failure_not_by_payload :
    (contentListener sampleBrowser (some ⟨Action.extractBlob,
        some "data:text/plain;base64,aGk=,@@@".toList, some "hi.txt".toList, some true, none⟩) =
        .ok (.promise (.ok (some ⟨true, some 7, none⟩))) ∧
      refPayload "data:text/plain;base64,aGk=,@@@".toList = "aGk=,@@@".toList ∧
      atob "aGk=,@@@".toList = .error .invalidCharacter) ∧
    (contentListener sampleBrowser (some ⟨Action.extractBlob,
        some "data:text/plain;base64url=1,hi%20there".toList, some "hi.txt".toList, some true,
        none⟩) = .ok (.promise (.ok (some (failure sampleBrowser .invalidCharacter)))) ∧
      refIsBase64 "data:text/plain;base64url=1,hi%20there".toList = false ∧
      refPayload "data:text/plain;base64url=1,hi%20there".toList = "hi%20there".toList ∧
      pctValid "hi%20there".toList = true) ∧
    (contentListener sampleBrowser (some ⟨Action.extractBlob,
        some "data:text/plain,%FF".toList, some "x.bin".toList, some true, none⟩) =
        .ok (.promise (.ok (some (failure sampleBrowser .uriError)))) ∧
      refIsBase64 "data:text/plain,%FF".toList = false ∧
      refPayload "data:text/plain,%FF".toList = "%FF".toList ∧
      pctValid "%FF".toList = true) := by
  decide

/-- C7 (amended): for a message with action `extractBlob` and a
string-or-absent `url` the listener of the content script returns, without
throwing, a promise that resolves to a response object `r`.  It is
`{success: false, error: 'no url'}` when the URL is absent or empty.  For a
URL `data:` + `h` + `,` + `p` with no comma in `h` and no further comma in `p`:
if the header contains `;base64`, `r` is `{success: false, error: String(err)}`
when `atob` rejects `p` with `err`, and otherwise the answer to forwarding the
decoded bytes; if the header does not contain `;base64`, `r` is the failure
object of a `URIError` when `p` is not valid percent-encoding, and the answer
to forwarding the decoded text when `p` is valid percent-encoding whose
escapes are all below `%80`.  For any other URL `r` is
`{success: false, error: String(err)}` when `fetch` fails with `err`, answers
with a non-ok status, or its body cannot be read, and otherwise the answer to
forwarding the body.  The answer to forwarding is
`{success: false, error: String(err)}` when the message cannot be delivered,
and otherwise exactly the response of the background listener. -/
theorem extractBlob_answers (env : Browser) (m : Message)
    (ha : m.action = Action.extractBlob) :
    ∃ r : Response, contentListener env (some m) = .ok (.promise (.ok (some r))) ∧
      (truthy m.url = false → r = ⟨false, none, some "no url".toList⟩) ∧
      (∀ h p, m.url = some ("data:".toList ++ h ++ ',' :: p) → ',' ∉ h → ',' ∉ p →
        (";base64".toList <:+: "data:".toList ++ h →
          (∀ err, atob p = .error err → r = failure env err) ∧
          (∀ binary, atob p = .ok binary →
            ∃ mime, Forwarded env m ⟨toUint8Array binary, mime⟩ r)) ∧
        (¬ ";base64".toList <:+: "data:".toList ++ h →
          (pctValid p = false → r = failure env .uriError) ∧
          (pctAscii p = true → ∃ decoded mime, decodeURIComponent p = .ok decoded ∧
            Forwarded env m ⟨toUint8Array decoded, mime⟩ r))) ∧
      (∀ u, m.url = some u → u ≠ [] → startsWith u "data:".toList = false →
        (∀ err, env.fetch u = .error err → r = failure env err) ∧
        (∀ res, env.fetch u = .ok res →
          (res.ok = false → r = failure env
            (.error ("fetch failed: ".toList ++ (Nat.repr res.status).toList))) ∧
          (res.ok = true →
            (∀ err, res.blob = .error err → r = failure env err) ∧
            (∀ blob, res.blob = .ok blob → Forwarded env m blob r)))) := by
  obtain ⟨r, hr, hnourl, hdata, hfetch⟩ := extractBlob_by_locals env m ha
  refine ⟨r, hr, hnourl, ?_, hfetch⟩
  intro h p hu hh hp
  have hne : "data:".toList ++ h ++ ',' :: p ≠ [] := by
    intro e
    have := congrArg List.length e
    simp at this
  have hsw : startsWith ("data:".toList ++ h ++ ',' :: p) "data:".toList = true :=
    (startsWith_iff _ _).mpr ⟨h ++ ',' :: p, by simp⟩
  obtain ⟨f, hf, herr, hok⟩ := hdata _ hu hne hsw
  have hf0 := hf
  rw [dataUrlFields_of_form h p hh] at hf
  have hf2 := (Except.ok.inj hf).symm
  have hpay : p.takeWhile (fun c => c != ',') = p := by
    apply List.takeWhile_eq_self_iff.mpr
    intro c hc
    have : c ≠ ',' := fun e => hp (e ▸ hc)
    simpa using this
  have hdp : f.dataPart = p := by
    rw [hf2]
    exact hpay
  have hib : f.isBase64 = (indexOf ("data:".toList ++ h) ";base64".toList != -1) := by
    rw [hf2]
  have hblob := dataUrlBlob_of_fields _ f hf0
  constructor
  · intro hflag
    have hb : f.isBase64 = true := by
      rw [hib]
      exact (indexOf_ne_iff _ _).mpr hflag
    constructor
    · intro err hat
      exact herr err (Or.inl ⟨hb, by rw [hdp]; exact hat⟩)
    · intro binary hat
      refine ⟨f.mime, hok _ ?_⟩
      rw [hblob]
      simp only [dataUrlBytes, hb, if_true, hdp, hat]
  · intro hflag
    have hb : f.isBase64 = false := by
      rw [hib]
      cases hx : (indexOf ("data:".toList ++ h) ";base64".toList != -1) with
      | false => rfl
      | true => exact absurd ((indexOf_ne_iff _ _).mp hx) hflag
    constructor
    · intro hv
      exact herr .uriError
        (Or.inr ⟨hb, by rw [hdp]; exact decodeURIComponent_of_not_pctValid p hv⟩)
    · intro hv
      obtain ⟨d, hd⟩ := decodeURIComponent_of_pctAscii p hv
      refine ⟨d, f.mime, hd, hok _ ?_⟩
      rw [hblob]
      simp only [dataUrlBytes, hb, Bool.false_eq_true, if_false, hdp, hd]

/-- C7 (witness): an `extractBlob` message for `data:text/plain;base64,aGk=`
in a browser where every call succeeds. -/
theorem extractBlob_answers_witness :
    ∃ r : Response, contentListener sampleBrowser
      (some ⟨Action.extractBlob, some "data:text/plain;base64,aGk=".toList, some "hi.txt".toList,
        some true, none⟩) = .ok (.promise (.ok (some r))) :=
  let ⟨r, h, _⟩ := extractBlob_answers sampleBrowser
    ⟨Action.extractBlob, some "data:text/plain;base64,aGk=".toList, some "hi.txt".toList,
      some true, none⟩ rfl
  ⟨r, h⟩

end MediaExtractor
